import Mathlib

/-!
Verification of the movie-scraping and vocabulary modules
(`app/utils/movie.py`, `app/utils/words.py`) of AceLineBot.

The Python code is shallowly embedded: HTML documents are modelled as an
inductive tree (a BeautifulSoup parse result), the concrete regular
expressions used by the code are embedded as executable matchers over
`List Char` with Python `re.search` leftmost-match semantics, dictionaries
with optionally-present keys become structures of `Option String`, and the
LINE-SDK card constructors (which the code wraps in try/except) become a
parametric fallible builder `MovieRecord → Except String Bubble`.
Character classes (`\s`, `\d`, `str.strip`) use their ASCII meaning,
matching every input the scraped site produces.
-/

set_option maxRecDepth 4000

/-! ## Character classes and small string helpers -/

/-- Python ASCII whitespace, the character class of `\s` and of `str.strip()`:
space, tab, newline, carriage return, vertical tab, form feed. -/
def isWsChar (c : Char) : Bool :=
  c == ' ' || c == '\t' || c == '\n' || c == '\r' || c == Char.ofNat 11 || c == Char.ofNat 12

/-- The apostrophe character (written via its code point). -/
def squoteChar : Char := Char.ofNat 39

/-- Characters of the Python character class `['\"]` used in the poster-URL
regexes and of `str.strip('\'"')`. -/
def isQuoteChar (c : Char) : Bool :=
  c == squoteChar || c == '"'

/-- Python `str.strip(chars)`: remove all leading and trailing characters
satisfying `p`. -/
def stripChars (p : Char → Bool) (l : List Char) : List Char :=
  ((l.dropWhile p).reverse.dropWhile p).reverse

/-- Python `str.strip()` on a string (ASCII whitespace). -/
def pyStrip (s : String) : String :=
  String.mk (stripChars isWsChar s.data)

/-- Truthiness of `dict.get(key)` in Python: `None` and the empty string are
falsy, any other string is truthy. -/
def truthy : Option String → Bool
  | none => false
  | some s => !(s == "")

/-! ## Embedding of the poster-URL regexes (`extract_image_url`)

The source tries, in order, the patterns
  `background-image:\s*url\(['\"]?(.*?)['\"]?\)`,
  `background:\s*url\(['\"]?(.*?)['\"]?\)`,
  `url\(['\"]?(.*?)['\"]?\)`
with `re.search` (leftmost match) and `re.IGNORECASE`; the first pattern
whose captured group, after `.strip('\'"').strip()`, is non-empty and does
not start with `data:` wins. -/

/-- Case-insensitive character comparison (`re.IGNORECASE`). -/
def charEqCI (p c : Char) : Bool := p.toLower == c.toLower

/-- Match a literal pattern fragment case-insensitively at the head of the
input, returning the rest of the input. -/
def matchLiteralCI : List Char → List Char → Option (List Char)
  | [], l => some l
  | _ :: _, [] => none
  | p :: ps, c :: cs => if charEqCI p c then matchLiteralCI ps cs else none

/-- Does `['\"]?\)` match at the head of the input?  This is where the lazy
capture `(.*?)` may stop.  The optional quote is greedy, but a prefix of
shape quote-then-paren and a bare paren both end the capture, so a single
boolean test captures both alternatives. -/
def closeParen : List Char → Bool
  | [] => false
  | [c] => c == ')'
  | c :: d :: _ => (isQuoteChar c && d == ')') || c == ')'

/-- The lazy capture `(.*?)` followed by `['\"]?\)`: take the shortest
prefix after which the closing alternative matches; `.` does not match a
newline.  Returns the captured group. -/
def lazyCapture : List Char → Option (List Char)
  | [] => none
  | c :: rest =>
    if closeParen (c :: rest) then some []
    else if c == '\n' then none
    else (lazyCapture rest).map (fun cap => c :: cap)

/-- Match `['\"]?(.*?)['\"]?\)` at the head of the input (the part of the
patterns after `url(`): the optional opening quote is consumed greedily,
with backtracking to the unconsumed alternative. -/
def matchAfterParen : List Char → Option (List Char)
  | [] => none
  | c :: rest =>
    if isQuoteChar c then
      match lazyCapture rest with
      | some cap => some cap
      | none => lazyCapture (c :: rest)
    else lazyCapture (c :: rest)

/-- The literal `url(`. -/
def urlLit : List Char := ['u', 'r', 'l', '(']

/-- The literal `background-image:`. -/
def bgImageLit : List Char :=
  ['b', 'a', 'c', 'k', 'g', 'r', 'o', 'u', 'n', 'd', '-', 'i', 'm', 'a', 'g', 'e', ':']

/-- The literal `background:`. -/
def bgLit : List Char := ['b', 'a', 'c', 'k', 'g', 'r', 'o', 'u', 'n', 'd', ':']

/-- The literal `data:` (inline-data URI scheme, checked case-sensitively by
`img_url.startswith('data:')`). -/
def dataLit : List Char := ['d', 'a', 't', 'a', ':']

/-- Match `url\(['\"]?(.*?)['\"]?\)` at the head of the input, returning the
captured group. -/
def matchUrlAt (l : List Char) : Option (List Char) :=
  match matchLiteralCI urlLit l with
  | some r => matchAfterParen r
  | none => none

/-- Match one full poster pattern at the head of the input: an optional
literal pattern head (`background-image:` or `background:`) followed by
`\s*`, then `url\(['\"]?(.*?)['\"]?\)`.  Since `url(` starts with a
non-whitespace character, the greedy `\s*` needs no backtracking. -/
def matchPatternAt : Option (List Char) → List Char → Option (List Char)
  | none, l => matchUrlAt l
  | some lit, l =>
    match matchLiteralCI lit l with
    | some r => matchUrlAt (r.dropWhile isWsChar)
    | none => none

/-- Python `re.search`: try the pattern at every position from the left and
return the capture of the first (leftmost) match. -/
def searchPattern (pre : Option (List Char)) : List Char → Option (List Char)
  | [] => matchPatternAt pre []
  | c :: rest =>
    match matchPatternAt pre (c :: rest) with
    | some cap => some cap
    | none => searchPattern pre rest

/-- One iteration of the pattern loop in `extract_image_url`: search for the
pattern, clean the captured group with `.strip('\'"').strip()`, and accept
it only if it is non-empty and does not start with `data:`. -/
def tryPattern (pre : Option (List Char)) (style : List Char) : Option (List Char) :=
  match searchPattern pre style with
  | none => none
  | some cap =>
    let u := stripChars isWsChar (stripChars isQuoteChar cap)
    if !u.isEmpty && !(dataLit.isPrefixOf u) then some u else none

/-- The pattern loop of `extract_image_url` applied to the value of the
`style` attribute: the three patterns are tried in order and the first
accepted capture is returned; otherwise the empty string. -/
def extract_image_url_style (style : List Char) : List Char :=
  match tryPattern (some bgImageLit) style with
  | some u => u
  | none =>
    match tryPattern (some bgLit) style with
    | some u => u
    | none =>
      match tryPattern none style with
      | some u => u
      | none => []

/-- Poster extraction from an optional `style` attribute: an absent
attribute yields the empty string (the `if not figure.has_attr('style')`
early return). -/
def extractFromStyle : Option (List Char) → List Char
  | none => []
  | some s => extract_image_url_style s

/-! ## Embedding of the status regexes (`extract_status_info`)

The source applies `re.search(r'(\d+小時\d+分)', text)` and
`re.search(r'上映(\d+週|\d+天)', text)` to the text of the status element.
`\d+` is greedy; since the following literal is never a digit, maximal
munch is equivalent to greedy matching with backtracking. -/

/-- Maximal digit prefix (`\d+` with maximal munch). -/
def takeDigits : List Char → List Char × List Char
  | [] => ([], [])
  | c :: rest =>
    if c.isDigit then
      let (d, r) := takeDigits rest
      (c :: d, r)
    else ([], c :: rest)

/-- Match `\d+小時\d+分` at the head of the input, returning the matched
substring (= the captured group). -/
def matchDurationAt (l : List Char) : Option (List Char) :=
  let (d1, r1) := takeDigits l
  if d1.isEmpty then none
  else
    match r1 with
    | '小' :: '時' :: r2 =>
      let (d2, r3) := takeDigits r2
      if d2.isEmpty then none
      else
        match r3 with
        | '分' :: _ => some (d1 ++ '小' :: '時' :: (d2 ++ ['分']))
        | _ => none
    | _ => none

/-- Leftmost match of `(\d+小時\d+分)` (Python `re.search`). -/
def searchDuration : List Char → Option (List Char)
  | [] => none
  | c :: rest =>
    match matchDurationAt (c :: rest) with
    | some m => some m
    | none => searchDuration rest

/-- Match `上映(\d+週|\d+天)` at the head of the input, returning the
captured group (digits plus the unit character): the literal `上映`, then
one or more digits, then the alternation `週`/`天`. -/
def matchReleaseAt : List Char → Option (List Char)
  | c1 :: c2 :: r =>
    if c1 == '上' && c2 == '映' then
      let (d, r2) := takeDigits r
      if d.isEmpty then none
      else
        match r2 with
        | c :: _ =>
          if c == '週' then some (d ++ ['週'])
          else if c == '天' then some (d ++ ['天'])
          else none
        | [] => none
    else none
  | _ => none

/-- Leftmost match of `上映(\d+週|\d+天)`, returning the captured group. -/
def searchRelease : List Char → Option (List Char)
  | [] => none
  | c :: rest =>
    match matchReleaseAt (c :: rest) with
    | some g => some g
    | none => searchRelease rest

/-- The two status fields computed from one status text blob: the `片長`
(duration) field is the full leftmost match of the duration pattern, the
`上映時間` (release window) field is `"上映"` prepended to the captured
group of the release pattern.  Absence of a match leaves a field `none`. -/
def statusFieldsOfText (text : List Char) : Option String × Option String :=
  ((searchDuration text).map String.mk,
   (searchRelease text).map (fun g => String.mk ('上' :: '映' :: g)))

/-! ## HTML document model (BeautifulSoup trees)

A parsed HTML document is a tree of elements (tag, class list, attribute
dictionary, children) and text nodes.  `find(tag, class_=c)` searches the
descendants of a node in document order and returns the first element with
the given tag whose class list contains `c`; `find_all` returns all of
them; `get_text(strip=True)` concatenates the stripped text descendants. -/

inductive HtmlNode where
  | elem (tag : String) (classes : List String) (attrs : List (String × String))
      (children : List HtmlNode)
  | text (s : String)

/-- Does a node match `find(tag, class_=cls)`? -/
def matchesTC (tag cls : String) : HtmlNode → Bool
  | .elem t cs _ _ => t == tag && cs.contains cls
  | .text _ => false

mutual

/-- BeautifulSoup `find(tag, class_=cls)`: first matching descendant in
document order (the node itself is not considered). -/
def findTC (tag cls : String) : HtmlNode → Option HtmlNode
  | .text _ => none
  | .elem _ _ _ cs => findTCL tag cls cs

/-- `find` over a list of sibling subtrees: each sibling is considered
before its own descendants. -/
def findTCL (tag cls : String) : List HtmlNode → Option HtmlNode
  | [] => none
  | c :: rest =>
    if matchesTC tag cls c then some c
    else
      match findTC tag cls c with
      | some r => some r
      | none => findTCL tag cls rest

end

mutual

/-- BeautifulSoup `find_all(tag, class_=cls)`: all matching descendants in
document order. -/
def findAllTC (tag cls : String) : HtmlNode → List HtmlNode
  | .text _ => []
  | .elem _ _ _ cs => findAllTCL tag cls cs

/-- `find_all` over a list of sibling subtrees. -/
def findAllTCL (tag cls : String) : List HtmlNode → List HtmlNode
  | [] => []
  | c :: rest =>
    (if matchesTC tag cls c then [c] else []) ++ findAllTC tag cls c
      ++ findAllTCL tag cls rest

end

mutual

/-- Is there any descendant matching tag and class?  (Declarative
counterpart of `findTC`, used to state element absence.) -/
def existsTC (tag cls : String) : HtmlNode → Bool
  | .text _ => false
  | .elem _ _ _ cs => existsTCL tag cls cs

/-- Existence of a match in a list of sibling subtrees. -/
def existsTCL (tag cls : String) : List HtmlNode → Bool
  | [] => false
  | c :: rest => matchesTC tag cls c || existsTC tag cls c || existsTCL tag cls rest

end

mutual

/-- All text descendants of a node, each stripped
(`get_text(strip=True)` collects exactly these). -/
def textsOf : HtmlNode → List String
  | .text s => [pyStrip s]
  | .elem _ _ _ cs => textsOfL cs

/-- Text descendants of a list of sibling subtrees. -/
def textsOfL : List HtmlNode → List String
  | [] => []
  | c :: rest => textsOf c ++ textsOfL rest

end

/-- `element.get_text(strip=True)`: concatenation of the stripped text
descendants. -/
def getTextStrip (n : HtmlNode) : String :=
  String.join (textsOf n)

/-- Attribute dictionary of a node. -/
def attrsOf : HtmlNode → List (String × String)
  | .elem _ _ a _ => a
  | .text _ => []

/-! ## Field extraction (`extract_*` functions of `movie.py`) -/

/-- `extract_text_content(item, tag, class_name)`: text of the first
matching descendant, or the empty string if there is none. -/
def extract_text_content (item : HtmlNode) (tag cls : String) : String :=
  match findTC tag cls item with
  | some e => getTextStrip e
  | none => ""

/-- `extract_image_url(item)`: poster URL from the style attribute of the
poster `figure`; empty string when the figure or its `style` attribute is
absent, or when no pattern yields an acceptable URL. -/
def extract_image_url (item : HtmlNode) : String :=
  match findTC "figure" "detailListItem-posterImage" item with
  | none => ""
  | some fig =>
    match (attrsOf fig).lookup "style" with
    | none => ""
    | some style => String.mk (extract_image_url_style style.data)

/-- `extract_status_info(item, movie)`: duration and release-window fields
from the status element text; both absent when the element is absent. -/
def extract_status_info (item : HtmlNode) : Option String × Option String :=
  match findTC "div" "detailListItem-status" item with
  | none => (none, none)
  | some st => statusFieldsOfText (getTextStrip st).data

/-- Suffix after the last occurrence of a character
(Python `text.split(ch)[-1]`). -/
def afterLastChar (ch : Char) (l : List Char) : List Char :=
  ((l.reverse.takeWhile (fun c => !(c == ch))).reverse)

/-- Tokenization `re.split(r'[•\s]+', types)` followed by dropping empty
tokens: maximal runs of characters that are neither `•` nor whitespace. -/
def splitBulletWs (l : List Char) : List (List Char) :=
  let isSep : Char → Bool := fun c => c == '•' || isWsChar c
  ((l.splitOnP isSep).map id).filter (fun t => !t.isEmpty)

/-- Join tokens with `' • '` (Python `' • '.join(type_list)`). -/
def joinBullet (ts : List (List Char)) : String :=
  String.intercalate " • " (ts.map String.mk)

/-- `extract_category_info(item, movie)`: the genre field.  Only set when
the category element exists, its text contains `級`, and tokenizing the
part after the last `級` leaves at least one token. -/
def extract_category_info (item : HtmlNode) : Option String :=
  match findTC "div" "detailListItem-category" item with
  | none => none
  | some cat =>
    let t := (getTextStrip cat).data
    if t.contains '級' then
      let types := afterLastChar '級' t
      let toks := splitBulletWs types
      if !toks.isEmpty then some (joinBullet toks) else none
    else none

/-- The movie dictionary built by `extract_movie_info`: each field is
`some v` when the corresponding key is set (possibly to the empty string)
and `none` when the key is absent, mirroring the Python dict.  Key names
translate the Chinese dict keys: `img` = 圖片, `titleNative` = 中文片名,
`titleEng` = 英文片名, `rating` = 評分, `cert` = 分級, `duration` = 片長,
`releaseWindow` = 上映時間, `genre` = 類型, `trailerUrl` = 預告片連結. -/
structure MovieRecord where
  img : Option String
  titleNative : Option String
  titleEng : Option String
  rating : Option String
  cert : Option String
  duration : Option String
  releaseWindow : Option String
  genre : Option String
  trailerUrl : Option String
deriving DecidableEq, Repr

/-- `extract_movie_info(item)`: build the movie dictionary from one entry
element.  `圖片`, `中文片名`, `英文片名` and `評分` are always set (possibly
to the empty string); the other keys are set only when found. -/
def extract_movie_info (item : HtmlNode) : MovieRecord :=
  let cert :=
    match findTC "div" "detailListItem-certificate" item with
    | none => none
    | some certDiv =>
      match findTC "span" "glnBadge-text" certDiv with
      | none => none
      | some badge => some (getTextStrip badge)
  let status := extract_status_info item
  let trailer :=
    match findTC "a" "detailListItem-trailer" item with
    | none => none
    | some a =>
      match (attrsOf a).lookup "href" with
      | none => none
      | some href => some ("https://today.line.me" ++ href)
  { img := some (extract_image_url item)
    titleNative := some (extract_text_content item "h2" "detailListItem-title")
    titleEng := some (extract_text_content item "h3" "detailListItem-engTitle")
    rating := some (extract_text_content item "span" "iconInfo-text")
    cert := cert
    duration := status.1
    releaseWindow := status.2
    genre := extract_category_info item
    trailerUrl := trailer }

/-- `parse_movies_from_html`: all `li.detailList-item` entries of the
document in order, each run through `extract_movie_info`, keeping only
records whose `中文片名` is truthy.  The document argument is the
BeautifulSoup tree of the HTML text. -/
def parse_movies_from_html (doc : HtmlNode) : List MovieRecord :=
  ((findAllTC "li" "detailList-item" doc).map extract_movie_info).filter
    (fun m => truthy m.titleNative)

/-! ## Card rendering (`create_movie_bubble`, `get_movies`)

The LINE-SDK visual components are modelled structurally.  `create_movie_bubble`
wraps its whole body in try/except and returns `None` on any exception; the
SDK construction is therefore modelled as a caller-supplied fallible builder
`build : MovieRecord → Except String Bubble` whose `.ok` case is the pure
field mapping `mkBubble` written out below, so that any exception behaviour
of the SDK constructors can be represented. -/

/-- A visual component: text, a box of components, or a URI button. -/
inductive Component where
  | text (s : String)
  | box (contents : List Component)
  | button (label : String) (uri : String)
deriving Repr

/-- A bubble card: optional hero image URL, body contents, optional footer. -/
structure Bubble where
  hero : Option String
  body : List Component
  footer : Option Component
deriving Repr

/-- A flex carousel message: alt text plus the bubbles. -/
structure FlexMessage where
  altText : String
  contents : List Bubble
deriving Repr

/-- The body contents list built by `create_movie_bubble`: title (with the
render-time fallback label), optional original title, optional rating
row, optional info rows (duration, genre, release window). -/
def bubbleContents (m : MovieRecord) : List Component :=
  let base := [Component.text (m.titleNative.getD "未知電影")]
  let base := base ++ (if truthy m.titleEng then [Component.text (m.titleEng.getD "")] else [])
  let ratingBox :=
    (if truthy m.rating then [Component.text ("⭐ " ++ m.rating.getD "")] else [])
      ++ (if truthy m.cert then [Component.text ("🔞 " ++ m.cert.getD "")] else [])
  let base := base ++ (if !ratingBox.isEmpty then [Component.box ratingBox] else [])
  let infoRows :=
    (if truthy m.duration then [Component.text ("⏱️ " ++ m.duration.getD "")] else [])
      ++ (if truthy m.genre then [Component.text ("🎬 " ++ m.genre.getD "")] else [])
      ++ (if truthy m.releaseWindow then [Component.text ("📅 " ++ m.releaseWindow.getD "")] else [])
  base ++ infoRows

/-- The pure card construction of `create_movie_bubble` (the body of its
try block, assuming no SDK exception). -/
def mkBubble (m : MovieRecord) : Bubble :=
  { hero := if truthy m.img then some (m.img.getD "") else none
    body := bubbleContents m
    footer :=
      if truthy m.trailerUrl then
        some (Component.box [Component.button "觀看預告片" (m.trailerUrl.getD "")])
      else none }

/-- The always-succeeding builder: SDK constructors raise no exception. -/
def pureBuild (m : MovieRecord) : Except String Bubble := Except.ok (mkBubble m)

/-- `create_movie_bubble(movie)`: run the fallible construction; any raised
exception is swallowed and turned into `None`. -/
def create_movie_bubble (build : MovieRecord → Except String Bubble)
    (m : MovieRecord) : Option Bubble :=
  match build m with
  | Except.ok b => some b
  | Except.error _ => none

/-- `MAX_MOVIES` from the source. -/
def MAX_MOVIES : Nat := 10

/-- `get_movies()` after the scrape returned `movie_list`: `None` on an
empty list, otherwise the carousel of the successfully built cards of the
first `MAX_MOVIES` records, or `None` when no card was built. -/
def get_movies (build : MovieRecord → Except String Bubble)
    (movie_list : List MovieRecord) : Option FlexMessage :=
  if movie_list.isEmpty then none
  else
    let bubbles := (movie_list.take MAX_MOVIES).map (create_movie_bubble build)
    let bubbles := bubbles.filterMap id
    if !bubbles.isEmpty then some { altText := "電影排行榜", contents := bubbles }
    else none

/-! ## Dynamic page loader (`get_line_today_top_movies`)

The Playwright session is modelled by an environment describing which of
its blocking operations fail: `gotoRaises` is a navigation/transport
exception (propagated), `waitRaises` is the `PlaywrightTimeoutError` of
`wait_for_selector('li.detailList-item', timeout=15000)` (caught locally),
and `content` is the rendered document handed to the parser otherwise. -/

structure BrowserEnv where
  gotoRaises : Option String
  waitRaises : Bool
  content : HtmlNode

/-- `get_line_today_top_movies()`: navigation failure propagates as an
exception; a selector-wait timeout is caught and yields the empty list;
otherwise the rendered content is parsed. -/
def get_line_today_top_movies (env : BrowserEnv) : Except String (List MovieRecord) :=
  match env.gotoRaises with
  | some e => Except.error e
  | none =>
    if env.waitRaises then Except.ok []
    else Except.ok (parse_movies_from_html env.content)

/-! ## JSON model and parser (for `get_english_word` in `words.py`)

`json.loads` is embedded as a fuel-indexed recursive-descent parser over
the JSON grammar (objects, arrays, strings with escapes, numbers kept as
raw lexemes, `true`/`false`/`null`), strict about anything else, with
duplicate object keys resolved last-wins as in a Python dict. -/

inductive Json where
  | null
  | bool (b : Bool)
  | num (raw : String)
  | str (s : String)
  | arr (elems : List Json)
  | obj (members : List (String × Json))
deriving Repr

/-- JSON whitespace accepted by `json.loads`. -/
def isJsonWs (c : Char) : Bool :=
  c == ' ' || c == '\t' || c == '\n' || c == '\r'

/-- Value of a hexadecimal digit. -/
def hexDigitVal (c : Char) : Option Nat :=
  if c.isDigit then some (c.toNat - 48)
  else if 'a' ≤ c && c ≤ 'f' then some (c.toNat - 87)
  else if 'A' ≤ c && c ≤ 'F' then some (c.toNat - 55)
  else none

/-- Body of a JSON string after the opening quote: decode escapes, stop at
the closing quote, reject raw control characters and bad escapes. -/
def parseStringBody : List Char → Option (String × List Char)
  | [] => none
  | '\\' :: rest =>
    match rest with
    | '"' :: r => (parseStringBody r).map (fun (s, t) => (String.mk ('"' :: s.data), t))
    | '\\' :: r => (parseStringBody r).map (fun (s, t) => (String.mk ('\\' :: s.data), t))
    | '/' :: r => (parseStringBody r).map (fun (s, t) => (String.mk ('/' :: s.data), t))
    | 'b' :: r => (parseStringBody r).map (fun (s, t) => (String.mk (Char.ofNat 8 :: s.data), t))
    | 'f' :: r => (parseStringBody r).map (fun (s, t) => (String.mk (Char.ofNat 12 :: s.data), t))
    | 'n' :: r => (parseStringBody r).map (fun (s, t) => (String.mk ('\n' :: s.data), t))
    | 'r' :: r => (parseStringBody r).map (fun (s, t) => (String.mk ('\r' :: s.data), t))
    | 't' :: r => (parseStringBody r).map (fun (s, t) => (String.mk ('\t' :: s.data), t))
    | 'u' :: h1 :: h2 :: h3 :: h4 :: r =>
      match hexDigitVal h1, hexDigitVal h2, hexDigitVal h3, hexDigitVal h4 with
      | some a, some b, some c, some d =>
        (parseStringBody r).map
          (fun (s, t) => (String.mk (Char.ofNat (a * 4096 + b * 256 + c * 16 + d) :: s.data), t))
      | _, _, _, _ => none
    | _ => none
  | '"' :: rest => some ("", rest)
  | c :: rest =>
    if c.toNat < 32 then none
    else (parseStringBody rest).map (fun (s, t) => (String.mk (c :: s.data), t))

/-- Lex a JSON number (raw lexeme kept): `-? (0 | [1-9][0-9]*)
(\.[0-9]+)? ([eE][+-]?[0-9]+)?`. -/
def parseNumber (l : List Char) : Option (List Char × List Char) :=
  let (neg, l1) :=
    match l with
    | '-' :: r => (['-'], r)
    | _ => (([] : List Char), l)
  let intPart : Option (List Char × List Char) :=
    match l1 with
    | '0' :: r => some (['0'], r)
    | c :: _ =>
      if c.isDigit then
        let (d, r) := takeDigits l1
        some (d, r)
      else none
    | [] => none
  match intPart with
  | none => none
  | some (ip, r1) =>
    let (fp, r2) :=
      match r1 with
      | '.' :: rf =>
        let (fd, rr) := takeDigits rf
        if fd.isEmpty then (none, r1) else (some ('.' :: fd), rr)
      | _ => (none, r1)
    match fp, r2 with
    | none, '.' :: _ => none
    | _, _ =>
      let fpl := fp.getD []
      let expPart : Option (List Char × List Char) :=
        match r2 with
        | c :: re =>
          if c == 'e' || c == 'E' then
            let (sgn, rs) :=
              match re with
              | '+' :: rr => (['+'], rr)
              | '-' :: rr => (['-'], rr)
              | _ => (([] : List Char), re)
            let (ed, rr2) := takeDigits rs
            if ed.isEmpty then none else some (c :: (sgn ++ ed), rr2)
          else some ([], r2)
        | [] => some ([], r2)
      match expPart with
      | none => none
      | some (ep, r3) => some (neg ++ ip ++ fpl ++ ep, r3)

/-- Insert a member into an object, Python-dict style: an existing key is
overwritten in place, a new key is appended. -/
def upsertKey : List (String × Json) → String → Json → List (String × Json)
  | [], k, v => [(k, v)]
  | (k0, v0) :: rest, k, v =>
    if k0 == k then (k0, v) :: rest else (k0, v0) :: upsertKey rest k v

mutual

/-- Parse one JSON value (fuel-indexed). -/
def parseValue : Nat → List Char → Option (Json × List Char)
  | 0, _ => none
  | Nat.succ f, l =>
    match l.dropWhile isJsonWs with
    | '{' :: r =>
      (match r.dropWhile isJsonWs with
       | '}' :: r2 => some (Json.obj [], r2)
       | r2 => (parseMembers f [] r2).map (fun (ms, t) => (Json.obj ms, t)))
    | '[' :: r =>
      (match r.dropWhile isJsonWs with
       | ']' :: r2 => some (Json.arr [], r2)
       | r2 => (parseElems f [] r2).map (fun (es, t) => (Json.arr es, t)))
    | '"' :: r => (parseStringBody r).map (fun (s, t) => (Json.str s, t))
    | 't' :: 'r' :: 'u' :: 'e' :: r => some (Json.bool true, r)
    | 'f' :: 'a' :: 'l' :: 's' :: 'e' :: r => some (Json.bool false, r)
    | 'n' :: 'u' :: 'l' :: 'l' :: r => some (Json.null, r)
    | l2 => (parseNumber l2).map (fun (raw, t) => (Json.num (String.mk raw), t))

/-- Parse the members of an object, positioned at a key (fuel-indexed). -/
def parseMembers : Nat → List (String × Json) → List Char → Option (List (String × Json) × List Char)
  | 0, _, _ => none
  | Nat.succ f, acc, l =>
    match l.dropWhile isJsonWs with
    | '"' :: r =>
      match parseStringBody r with
      | none => none
      | some (k, r1) =>
        match r1.dropWhile isJsonWs with
        | ':' :: r2 =>
          match parseValue f r2 with
          | none => none
          | some (v, r3) =>
            let acc2 := upsertKey acc k v
            match r3.dropWhile isJsonWs with
            | ',' :: r4 => parseMembers f acc2 r4
            | '}' :: r4 => some (acc2, r4)
            | _ => none
        | _ => none
    | _ => none

/-- Parse the elements of an array, positioned at an element (fuel-indexed). -/
def parseElems : Nat → List Json → List Char → Option (List Json × List Char)
  | 0, _, _ => none
  | Nat.succ f, acc, l =>
    match parseValue f l with
    | none => none
    | some (v, r) =>
      match r.dropWhile isJsonWs with
      | ',' :: r2 => parseElems f (acc ++ [v]) r2
      | ']' :: r2 => some (acc ++ [v], r2)
      | _ => none

end

/-- `json.loads`: parse one value and require only whitespace after it. -/
def loads (s : String) : Option Json :=
  match parseValue (s.data.length + 1) s.data with
  | some (j, rest) => if (rest.dropWhile isJsonWs).isEmpty then some j else none
  | none => none

/-! ## Recovery pipeline of `get_english_word` (string-response shape) -/

/-- Prefix of the input through the last occurrence of `ch`. -/
def takeThroughLast (ch : Char) (l : List Char) : List Char :=
  (l.reverse.dropWhile (fun c => !(c == ch))).reverse

/-- The greedy regex `re.search(r'(\x7b.*\x7d)', response, re.DOTALL)`: the
leftmost position with an opening brace followed (anywhere) by a closing
brace starts the match, and the greedy `.*` extends it through the last
closing brace of the input. -/
def braceExtract : List Char → Option (List Char)
  | [] => none
  | c :: rest =>
    if c == '{' then
      if rest.contains '}' then some ('{' :: takeThroughLast '}' rest)
      else braceExtract rest
    else braceExtract rest

/-- The hard-coded fallback record substituted when every parse attempt
fails. -/
def fallback_word_data : List (String × Json) :=
  [("word", Json.str "fallback"),
   ("pronunciation", Json.str "/ˈfɔːlbæk/"),
   ("part_of_speech", Json.str "noun"),
   ("definition_en", Json.str "something or someone to turn to in case of failure or emergency"),
   ("definition_zh", Json.str "備用方案、後備選擇"),
   ("example_sentence", Json.str "We need a fallback plan in case this doesn\x27t work."),
   ("example_translation", Json.str "我們需要一個備用計劃，以防這個不起作用。")]

/-- The `required_fields` list of the source. -/
def required_fields : List String :=
  ["word", "pronunciation", "part_of_speech", "definition_en",
   "definition_zh", "example_sentence", "example_translation"]

/-- The try/except parsing cascade of `get_english_word` for a string
response: direct `json.loads`; on failure the greedy brace regex followed
by `json.loads` of the extracted span; if the regex does not match or that
parse raises, the exception is caught and the fallback record used. -/
def recover_word_data (response : String) : Json :=
  match loads response with
  | some j => j
  | none =>
    match braceExtract response.data with
    | some span =>
      match loads (String.mk span) with
      | some j => j
      | none => Json.obj fallback_word_data
    | none => Json.obj fallback_word_data

/-- The required-fields loop: each field missing from the dict is set to
the empty string (appended in `required_fields` order, as Python dict
insertion does). -/
def fill_required (kvs : List (String × Json)) : List (String × Json) :=
  required_fields.foldl
    (fun d f => if (d.lookup f).isSome then d else d ++ [(f, Json.str "")]) kvs

/-- `get_english_word` up to the word-data dictionary: the recovery cascade
followed by the required-fields loop.  When the recovered JSON value is
not an object the required-fields loop raises a `TypeError` outside any
try block (modelled as the error case). -/
def get_english_word_data (response : String) : Except String (List (String × Json)) :=
  match recover_word_data response with
  | Json.obj kvs => Except.ok (fill_required kvs)
  | _ => Except.error "TypeError"

/-! ## `generate_audio_url` (`words.py`)

`urllib.parse.quote(text)` encodes the UTF-8 bytes of the text, keeping
letters, digits, `_.-~` and the default-safe `/`, and writing every other
byte as `%XX` with uppercase hexadecimal. -/

/-- UTF-8 encoding of one character as byte values. -/
def utf8BytesOfChar (c : Char) : List Nat :=
  let n := c.toNat
  if n < 128 then [n]
  else if n < 2048 then [192 + n / 64, 128 + n % 64]
  else if n < 65536 then [224 + n / 4096, 128 + (n / 64) % 64, 128 + n % 64]
  else [240 + n / 262144, 128 + (n / 4096) % 64, 128 + (n / 64) % 64, 128 + n % 64]

/-- Bytes left unencoded by `urllib.parse.quote` with the default
`safe='/'`: ASCII letters, digits, `_`, `.`, `-`, `~` and `/`. -/
def isSafeByte (b : Nat) : Bool :=
  (65 ≤ b && b ≤ 90) || (97 ≤ b && b ≤ 122) || (48 ≤ b && b ≤ 57)
    || b == 95 || b == 46 || b == 45 || b == 126 || b == 47

/-- Uppercase hexadecimal digit. -/
def hexChar (d : Nat) : Char :=
  if d < 10 then Char.ofNat (48 + d) else Char.ofNat (55 + d)

/-- Percent-encoding of one byte. -/
def encodeByte (b : Nat) : List Char :=
  if isSafeByte b then [Char.ofNat b]
  else ['%', hexChar (b / 16), hexChar (b % 16)]

/-- `urllib.parse.quote(text)` with default safe characters. -/
def pyQuote (s : String) : String :=
  String.mk ((((s.data.map utf8BytesOfChar).flatten).map encodeByte).flatten)

/-- The fixed Google-TTS URL template head. -/
def ttsTemplateHead : String :=
  "https://translate.google.com/translate_tts?ie=UTF-8&tl=en&client=tw-ob&q="

/-- `generate_audio_url(text)`: empty string for falsy text, otherwise the
fixed template with the percent-encoded text as the query value. -/
def generate_audio_url (text : String) : String :=
  if text.isEmpty then ""
  else ttsTemplateHead ++ pyQuote text

/-! ## Concrete sample inputs used by the witnesses -/

/-- A fully populated trending-list entry element. -/
def sampleItem : HtmlNode :=
  .elem "li" ["detailList-item"] []
    [ .elem "figure" ["detailListItem-posterImage"]
        [("style", "background-image:url(https://img.example/p.jpg)")] []
    , .elem "h2" ["detailListItem-title"] [] [.text "玩具總動員"]
    , .elem "h3" ["detailListItem-engTitle"] [] [.text "Toy Story"]
    , .elem "span" ["iconInfo-text"] [] [.text "4.8"]
    , .elem "div" ["detailListItem-certificate"] []
        [.elem "span" ["glnBadge-text"] [] [.text "普遍級"]]
    , .elem "div" ["detailListItem-status"] [] [.text "2小時15分上映3週"]
    , .elem "div" ["detailListItem-category"] [] [.text "普遍級動作 • 冒險"]
    , .elem "a" ["detailListItem-trailer"] [("href", "/tw/v2/movie/abc/trailer")] [] ]

/-- An entry element with no title element (only an original title). -/
def sampleItemNoTitle : HtmlNode :=
  .elem "li" ["detailList-item"] [] [.elem "h3" ["detailListItem-engTitle"] [] [.text "Nameless"]]

/-- A document containing fifteen valid entries. -/
def sampleDoc15 : HtmlNode :=
  .elem "body" [] [] (List.replicate 15 sampleItem)

/-- A record with every key absent. -/
def noneMovieRecord : MovieRecord :=
  { img := none, titleNative := none, titleEng := none, rating := none, cert := none,
    duration := none, releaseWindow := none, genre := none, trailerUrl := none }

/-- A record marked so that `sampleFailBuild` raises on it. -/
def sampleFailRecord : MovieRecord :=
  { noneMovieRecord with titleNative := some "FAIL" }

/-- A valid record. -/
def sampleOkRecordA : MovieRecord :=
  { noneMovieRecord with titleNative := some "電影A" }

/-- Another valid record. -/
def sampleOkRecordB : MovieRecord :=
  { noneMovieRecord with titleNative := some "電影B" }

/-- A builder that raises exactly on `sampleFailRecord`, modelling an SDK
constructor exception for that record. -/
def sampleFailBuild (r : MovieRecord) : Except String Bubble :=
  if r = sampleFailRecord then Except.error "boom" else Except.ok (mkBubble r)

/-- A builder that raises on every record. -/
def allFailBuild (_ : MovieRecord) : Except String Bubble := Except.error "boom"

/-! ## Declarative predicates used to state the regex claims -/

/-- `m` occurs as a contiguous substring of `t`. -/
def SubSeg (m t : List Char) : Prop :=
  ∃ pre post, t = pre ++ m ++ post

/-- Shape of a duration match: non-empty digit strings around the literal
`小時` and before the literal `分`. -/
def DurationShaped (m : List Char) : Prop :=
  ∃ d1 d2 : List Char,
    d1 ≠ [] ∧ d2 ≠ [] ∧ (∀ c ∈ d1, c.isDigit = true) ∧ (∀ c ∈ d2, c.isDigit = true) ∧
    m = d1 ++ '小' :: '時' :: (d2 ++ ['分'])

/-- The text contains a substring matching the duration pattern. -/
def ContainsDuration (t : List Char) : Prop :=
  ∃ m, SubSeg m t ∧ DurationShaped m

/-- Shape of a release-window captured group: a non-empty digit string
followed by `週` or `天`. -/
def ReleaseShaped (g : List Char) : Prop :=
  ∃ d : List Char, d ≠ [] ∧ (∀ c ∈ d, c.isDigit = true) ∧
    (g = d ++ ['週'] ∨ g = d ++ ['天'])

/-- The text contains a substring matching the release pattern
`上映(\d+週|\d+天)`. -/
def ContainsRelease (t : List Char) : Prop :=
  ∃ g, SubSeg ('上' :: '映' :: g) t ∧ ReleaseShaped g

/-- Characters that may appear in a "normal" poster URL for the purpose of
the per-pattern extraction claims: no parentheses (which delimit the
`url(...)` term), no quotes, no whitespace, no newline.  Real URLs embedded
in the site styles satisfy this. -/
def goodUrlChar (c : Char) : Bool :=
  !(c == '(' || c == ')' || isQuoteChar c || c == '\n' || isWsChar c)

/-- A normal URL: non-empty and made of normal characters. -/
def normalUrl (u : List Char) : Bool :=
  !u.isEmpty && u.all goodUrlChar

/-- The style text `background-image:url(` ++ u ++ `)`. -/
def styleBgImage (u : List Char) : List Char := bgImageLit ++ urlLit ++ u ++ [')']

/-- The style text `background:url(` ++ u ++ `)`. -/
def styleBg (u : List Char) : List Char := bgLit ++ urlLit ++ u ++ [')']

/-- The style text `url(` ++ u ++ `)`. -/
def styleBare (u : List Char) : List Char := urlLit ++ u ++ [')']

/-- A model text-generation response with prose noise around an embedded
JSON object holding all seven required keys. -/
def sampleNoiseResponse : String :=
  "Sure! Here is your word: \x7b\"word\":\"x\",\"pronunciation\":\"p\",\"part_of_speech\":\"n\",\"definition_en\":\"d\",\"definition_zh\":\"z\",\"example_sentence\":\"s\",\"example_translation\":\"t\"\x7d hope it helps"

/-- The object embedded in `sampleNoiseResponse`. -/
def sampleEmbeddedObj : List (String × Json) :=
  [("word", Json.str "x"), ("pronunciation", Json.str "p"),
   ("part_of_speech", Json.str "n"), ("definition_en", Json.str "d"),
   ("definition_zh", Json.str "z"), ("example_sentence", Json.str "s"),
   ("example_translation", Json.str "t")]

/-! ## Helper lemmas -/

mutual

theorem findTC_none_iff (tag cls : String) (n : HtmlNode) :
    findTC tag cls n = none ↔ existsTC tag cls n = false := by
  cases n with
  | text s => simp [findTC, existsTC]
  | elem t cs attrs children =>
    rw [show findTC tag cls (.elem t cs attrs children) = findTCL tag cls children from rfl]
    rw [show existsTC tag cls (.elem t cs attrs children) = existsTCL tag cls children from rfl]
    exact findTCL_none_iff tag cls children

theorem findTCL_none_iff (tag cls : String) (l : List HtmlNode) :
    findTCL tag cls l = none ↔ existsTCL tag cls l = false := by
  cases l with
  | nil => simp [findTCL, existsTCL]
  | cons c rest =>
    rw [show findTCL tag cls (c :: rest)
        = (if matchesTC tag cls c then some c
           else match findTC tag cls c with
                | some r => some r
                | none => findTCL tag cls rest) from rfl]
    rw [show existsTCL tag cls (c :: rest)
        = (matchesTC tag cls c || existsTC tag cls c || existsTCL tag cls rest) from rfl]
    by_cases hm : matchesTC tag cls c
    · simp [hm]
    · simp only [hm, if_false, Bool.false_or]
      cases hf : findTC tag cls c with
      | some r =>
        have : existsTC tag cls c = true := by
          by_contra hx
          have := (findTC_none_iff tag cls c).2 (by simpa using hx)
          rw [this] at hf
          exact Option.noConfusion hf
        simp [this]
      | none =>
        have : existsTC tag cls c = false := (findTC_none_iff tag cls c).1 hf
        simp [this, findTCL_none_iff tag cls rest]

end

theorem get_movies_eq (build : MovieRecord → Except String Bubble) (l : List MovieRecord) :
    get_movies build l =
      if l.isEmpty then none
      else if ((l.take MAX_MOVIES).filterMap (create_movie_bubble build)).isEmpty then none
      else some { altText := "電影排行榜",
                  contents := (l.take MAX_MOVIES).filterMap (create_movie_bubble build) } := by
  unfold get_movies
  have hmap : ((l.take MAX_MOVIES).map (create_movie_bubble build)).filterMap id
      = (l.take MAX_MOVIES).filterMap (create_movie_bubble build) := by
    rw [List.filterMap_map]
    simp [Function.comp]
  by_cases h : l.isEmpty
  · simp [h]
  · simp only [h, if_false, hmap]
    by_cases h2 : ((l.take MAX_MOVIES).filterMap (create_movie_bubble build)).isEmpty
    · simp [h2]
    · simp [h2]

/-! ## Claim C6 -/

/-- C6: when the wait for the content-marker element times out
(`PlaywrightTimeoutError` from `wait_for_selector`), the loader returns the
empty record sequence as a normal result, not an error. -/
theorem claim_C6_wait_timeout_yields_empty (env : BrowserEnv)
    (hgoto : env.gotoRaises = none) (hwait : env.waitRaises = true) :
    get_line_today_top_movies env = Except.ok [] := by
  unfold get_line_today_top_movies
  rw [hgoto, hwait]
  simp

/-- Witness for C6 at a concrete environment. -/
theorem claim_C6_witness :
    get_line_today_top_movies ⟨none, true, HtmlNode.text ""⟩ = Except.ok [] :=
  claim_C6_wait_timeout_yields_empty _ rfl rfl

/-! ## Claim C9 -/

/-- C9 counterexample: for the empty input text the function returns the
empty string, not the template with an empty query value, so the claim as
stated ("for every input text") fails at the concrete input `""`. -/
theorem claim_C9_counterexample :
    generate_audio_url "" = "" ∧ generate_audio_url "" ≠ ttsTemplateHead ++ pyQuote "" := by
  refine ⟨rfl, ?_⟩
  decide

/-- C9 amended: for every non-empty input text, the generated audio link
equals the fixed text-to-speech query URL template with the text
percent-encoded and embedded as the query value; for empty text the
function returns the empty string. -/
theorem claim_C9_amended_audio_url (t : String) (h : t ≠ "") :
    generate_audio_url t = ttsTemplateHead ++ pyQuote t ∧ generate_audio_url "" = "" := by
  refine ⟨?_, rfl⟩
  unfold generate_audio_url
  rw [if_neg]
  simp only [String.isEmpty_iff]
  exact h

/-- Witness for C9 at a concrete text. -/
theorem claim_C9_witness :
    generate_audio_url "hello world" = ttsTemplateHead ++ pyQuote "hello world" ∧
      generate_audio_url "" = "" :=
  claim_C9_amended_audio_url "hello world" (by decide)

/-! ## Claim C10 -/

/-- C10: `get_movies` returns the absence value `None` both when the scrape
produced zero records and when it produced records but every card
construction failed, so the two situations are indistinguishable to the
caller. -/
theorem claim_C10_none_collapses (build : MovieRecord → Except String Bubble)
    (l : List MovieRecord) :
    (l = [] → get_movies build l = none) ∧
    ((∀ m ∈ l.take MAX_MOVIES, ∃ e, build m = Except.error e) →
      get_movies build l = none) := by
  constructor
  · intro hl
    subst hl
    rfl
  · intro hfail
    rw [get_movies_eq]
    have hnil : (l.take MAX_MOVIES).filterMap (create_movie_bubble build) = [] := by
      rw [List.filterMap_eq_nil_iff]
      intro m hm
      obtain ⟨e, he⟩ := hfail m hm
      unfold create_movie_bubble
      rw [he]
    rw [hnil]
    by_cases h : l.isEmpty
    · simp [h]
    · simp [h]

/-- Witness for C10: a one-record list on which the builder raises yields
`None`, just as the empty list does. -/
theorem claim_C10_witness :
    get_movies allFailBuild [] = none ∧ get_movies allFailBuild [sampleOkRecordA] = none :=
  ⟨(claim_C10_none_collapses allFailBuild []).1 rfl,
   (claim_C10_none_collapses allFailBuild [sampleOkRecordA]).2
     (by intro m _; exact ⟨"boom", rfl⟩)⟩

/-! ## Claim C4 -/

/-- C4: the card stage emits at most `MAX_MOVIES` (10) cards, in original
order (the successful builds of the first ten records, in sequence), even
when parsing yields more records; parsing itself does not truncate: the
fifteen-entry sample document parses to fifteen records, of which exactly
ten become cards. -/
theorem claim_C4_truncation_after_parsing :
    (∀ (build : MovieRecord → Except String Bubble) (l : List MovieRecord) (msg : FlexMessage),
      get_movies build l = some msg →
        msg.contents.length ≤ MAX_MOVIES ∧
        msg.contents = (l.take MAX_MOVIES).filterMap (create_movie_bubble build)) ∧
    (parse_movies_from_html sampleDoc15).length = 15 ∧
    (∃ msg, get_movies pureBuild (parse_movies_from_html sampleDoc15) = some msg ∧
      msg.contents.length = 10) := by
  refine ⟨?_, by rfl, ?_⟩
  · intro build l msg hmsg
    rw [get_movies_eq] at hmsg
    by_cases h : l.isEmpty
    · rw [if_pos h] at hmsg
      exact Option.noConfusion hmsg
    · rw [if_neg h] at hmsg
      by_cases h2 : ((l.take MAX_MOVIES).filterMap (create_movie_bubble build)).isEmpty
      · rw [if_pos h2] at hmsg
        exact Option.noConfusion hmsg
      · rw [if_neg h2] at hmsg
        have h3 := Option.some.inj hmsg
        subst h3
        refine ⟨?_, rfl⟩
        calc ((l.take MAX_MOVIES).filterMap (create_movie_bubble build)).length
            ≤ (l.take MAX_MOVIES).length := List.length_filterMap_le _ _
          _ ≤ MAX_MOVIES := List.length_take_le _ _
  · exact ⟨_, rfl, by rfl⟩

/-- Witness for C4 at a concrete one-record list. -/
theorem claim_C4_witness :
    (get_movies pureBuild [sampleOkRecordA]).elim False
        (fun msg => msg.contents.length ≤ MAX_MOVIES ∧
          msg.contents = ([sampleOkRecordA].take MAX_MOVIES).filterMap
            (create_movie_bubble pureBuild)) := by
  have h := claim_C4_truncation_after_parsing.1 pureBuild [sampleOkRecordA]
    { altText := "電影排行榜", contents := [mkBubble sampleOkRecordA] } (by rfl)
  exact h

/-! ## Claim C8 -/

/-- C8: a record on which card construction raises is rendered as `None`
(the exception is swallowed), its card is dropped, and the cards of all
sibling records are unaffected: the result equals the result for the list
with the failing record removed. -/
theorem claim_C8_failing_record_dropped (build : MovieRecord → Except String Bubble)
    (e : String) (m : MovieRecord) (l1 l2 : List MovieRecord)
    (hfail : build m = Except.error e)
    (hlen : (l1 ++ m :: l2).length ≤ MAX_MOVIES) :
    create_movie_bubble build m = none ∧
    (∀ msg, get_movies build (l1 ++ m :: l2) = some msg →
      msg.contents = (l1 ++ l2).filterMap (create_movie_bubble build)) := by
  have hnone : create_movie_bubble build m = none := by
    unfold create_movie_bubble
    rw [hfail]
  have hlen2 : (l1 ++ l2).length ≤ MAX_MOVIES := by
    simp only [List.length_append, List.length_cons] at hlen ⊢
    omega
  have htake : (l1 ++ m :: l2).take MAX_MOVIES = l1 ++ m :: l2 :=
    List.take_of_length_le hlen
  have htake2 : (l1 ++ l2).take MAX_MOVIES = l1 ++ l2 :=
    List.take_of_length_le hlen2
  have hcards : ((l1 ++ m :: l2).take MAX_MOVIES).filterMap (create_movie_bubble build)
      = (l1 ++ l2).filterMap (create_movie_bubble build) := by
    rw [htake, List.filterMap_append, List.filterMap_cons, hnone, List.filterMap_append]
  refine ⟨hnone, ?_⟩
  intro msg hmsg
  rw [get_movies_eq] at hmsg
  by_cases h : (l1 ++ m :: l2).isEmpty
  · rw [if_pos h] at hmsg
    exact Option.noConfusion hmsg
  · rw [if_neg h] at hmsg
    by_cases h2 : (((l1 ++ m :: l2).take MAX_MOVIES).filterMap (create_movie_bubble build)).isEmpty
    · rw [if_pos h2] at hmsg
      exact Option.noConfusion hmsg
    · rw [if_neg h2] at hmsg
      have h3 := Option.some.inj hmsg
      subst h3
      exact hcards

/-- Witness for C8: with a builder that raises exactly on the middle
record, the middle card is dropped and the sibling cards survive. -/
theorem claim_C8_witness :
    create_movie_bubble sampleFailBuild sampleFailRecord = none ∧
    (∀ msg,
      get_movies sampleFailBuild ([sampleOkRecordA] ++ sampleFailRecord :: [sampleOkRecordB])
          = some msg →
      msg.contents = ([sampleOkRecordA] ++ [sampleOkRecordB]).filterMap
        (create_movie_bubble sampleFailBuild)) :=
  claim_C8_failing_record_dropped sampleFailBuild "boom" sampleFailRecord
    [sampleOkRecordA] [sampleOkRecordB] (by rfl) (by decide)

/-! ## Claim C1 -/

/-- C1: every record in the parser output has a truthy (present, non-empty)
`中文片名`; and for any entry element with no title element
(`h2.detailListItem-title` descendant), the extractor yields the empty
string for the title, the record carries `some ""` (the empty field value),
and that record is excluded from the output of the parser on every
document. -/
theorem claim_C1_titleless_excluded :
    (∀ (doc : HtmlNode), ∀ m ∈ parse_movies_from_html doc, truthy m.titleNative = true) ∧
    (∀ item : HtmlNode, existsTC "h2" "detailListItem-title" item = false →
      extract_text_content item "h2" "detailListItem-title" = "" ∧
      (extract_movie_info item).titleNative = some "" ∧
      ∀ doc : HtmlNode, extract_movie_info item ∉ parse_movies_from_html doc) := by
  have hmem : ∀ (doc : HtmlNode), ∀ m ∈ parse_movies_from_html doc, truthy m.titleNative = true := by
    intro doc m hm
    unfold parse_movies_from_html at hm
    exact (List.mem_filter.1 hm).2
  refine ⟨hmem, ?_⟩
  intro item hnone
  have hfind : findTC "h2" "detailListItem-title" item = none :=
    (findTC_none_iff "h2" "detailListItem-title" item).2 hnone
  have htext : extract_text_content item "h2" "detailListItem-title" = "" := by
    unfold extract_text_content
    rw [hfind]
  have hrec : (extract_movie_info item).titleNative = some "" := by
    unfold extract_movie_info
    simp only
    rw [htext]
  refine ⟨htext, hrec, ?_⟩
  intro doc hmem2
  have := hmem doc _ hmem2
  rw [hrec] at this
  simp [truthy] at this

/-- Witness for C1 at a concrete title-less entry element. -/
theorem claim_C1_witness :
    extract_text_content sampleItemNoTitle "h2" "detailListItem-title" = "" ∧
    (extract_movie_info sampleItemNoTitle).titleNative = some "" ∧
    extract_movie_info sampleItemNoTitle ∉ parse_movies_from_html sampleDoc15 :=
  ⟨(claim_C1_titleless_excluded.2 sampleItemNoTitle (by rfl)).1,
   (claim_C1_titleless_excluded.2 sampleItemNoTitle (by rfl)).2.1,
   (claim_C1_titleless_excluded.2 sampleItemNoTitle (by rfl)).2.2 sampleDoc15⟩

/-! ## Claim C7 -/

/-- C7: no record field is mandatory for rendering (the pure construction
succeeds on every record); a record whose title key is absent renders with
the literal fallback label `未知電影` as its first body line; and the parse
stage never performs that substitution: it always sets the title key, and
for a title-less element it sets it to the empty string, not to the
fallback label. -/
theorem claim_C7_render_time_fallback :
    (∀ m : MovieRecord, create_movie_bubble pureBuild m = some (mkBubble m)) ∧
    (∀ m : MovieRecord, m.titleNative = none →
      (mkBubble m).body.head? = some (Component.text "未知電影")) ∧
    (∀ item : HtmlNode, (extract_movie_info item).titleNative ≠ none) ∧
    (∀ item : HtmlNode, existsTC "h2" "detailListItem-title" item = false →
      (extract_movie_info item).titleNative = some "") := by
  refine ⟨fun m => rfl, ?_, ?_, ?_⟩
  · intro m hm
    unfold mkBubble bubbleContents
    simp only [hm, Option.getD_none]
    rfl
  · intro item
    unfold extract_movie_info
    simp only
    exact Option.noConfusion
  · intro item hnone
    have hfind : findTC "h2" "detailListItem-title" item = none :=
      (findTC_none_iff "h2" "detailListItem-title" item).2 hnone
    unfold extract_movie_info
    simp only
    unfold extract_text_content
    rw [hfind]

/-- Witness for C7 at a concrete record with no title key and at a concrete
title-less element. -/
theorem claim_C7_witness :
    create_movie_bubble pureBuild noneMovieRecord = some (mkBubble noneMovieRecord) ∧
    (mkBubble noneMovieRecord).body.head? = some (Component.text "未知電影") ∧
    (extract_movie_info sampleItemNoTitle).titleNative ≠ none ∧
    (extract_movie_info sampleItemNoTitle).titleNative = some "" :=
  ⟨claim_C7_render_time_fallback.1 noneMovieRecord,
   claim_C7_render_time_fallback.2.1 noneMovieRecord (by rfl),
   claim_C7_render_time_fallback.2.2.1 sampleItemNoTitle,
   claim_C7_render_time_fallback.2.2.2 sampleItemNoTitle (by rfl)⟩

/-! ## Claim C5 -/

theorem lookup_append_left {f : String} {d d2 : List (String × Json)} {v : Json}
    (h : d.lookup f = some v) : (d ++ d2).lookup f = some v := by
  induction d with
  | nil => simp [List.lookup] at h
  | cons kv rest ih =>
    obtain ⟨k, w⟩ := kv
    cases hk : (f == k) with
    | true =>
      simp only [List.lookup, hk] at h
      simp only [List.cons_append, List.lookup, hk]
      exact h
    | false =>
      simp only [List.lookup, hk] at h
      simp only [List.cons_append, List.lookup, hk]
      exact ih h

theorem lookup_append_right {f : String} {d d2 : List (String × Json)}
    (h : d.lookup f = none) : (d ++ d2).lookup f = d2.lookup f := by
  induction d with
  | nil => simp
  | cons kv rest ih =>
    obtain ⟨k, w⟩ := kv
    cases hk : (f == k) with
    | true =>
      simp only [List.lookup, hk] at h
      exact Option.noConfusion h
    | false =>
      simp only [List.lookup, hk] at h
      simp only [List.cons_append, List.lookup, hk]
      exact ih h

theorem fill_aux_preserves (fs : List String) :
    ∀ (d : List (String × Json)) (f : String) (v : Json), d.lookup f = some v →
      (fs.foldl (fun d f => if (d.lookup f).isSome then d else d ++ [(f, Json.str "")])
          d).lookup f = some v := by
  induction fs with
  | nil => intro d f v h; simpa using h
  | cons g fs ih =>
    intro d f v h
    simp only [List.foldl_cons]
    by_cases hg : (d.lookup g).isSome
    · rw [if_pos hg]
      exact ih d f v h
    · rw [if_neg hg]
      exact ih _ f v (lookup_append_left h)

theorem fill_aux_missing (fs : List String) :
    ∀ (d : List (String × Json)) (f : String), f ∈ fs → d.lookup f = none →
      (fs.foldl (fun d f => if (d.lookup f).isSome then d else d ++ [(f, Json.str "")])
          d).lookup f = some (Json.str "") := by
  induction fs with
  | nil => intro d f h; exact absurd h (List.not_mem_nil f)
  | cons g fs ih =>
    intro d f hf hnone
    simp only [List.foldl_cons]
    by_cases hfg : f = g
    · subst hfg
      rw [if_neg (by rw [hnone]; simp)]
      have hlk : (d ++ [(f, Json.str "")]).lookup f = some (Json.str "") := by
        rw [lookup_append_right hnone]
        simp [List.lookup]
      exact fill_aux_preserves fs _ f _ hlk
    · have hf2 : f ∈ fs := by
        cases List.mem_cons.1 hf with
        | inl h => exact absurd h hfg
        | inr h => exact h
      by_cases hg : (d.lookup g).isSome
      · rw [if_pos hg]
        exact ih d f hf2 hnone
      · rw [if_neg hg]
        refine ih _ f hf2 ?_
        rw [lookup_append_right hnone]
        simp [List.lookup, show (f == g) = false from by
          exact beq_eq_false_iff_ne.2 hfg]

/-- C5: for a string response from the text-generation service, the
fetcher first tries a direct JSON parse; on failure it extracts the
greedy outermost brace span and parses that, recovering an embedded object
exactly; when both the extraction and the reparse fail the fixed fallback
record (whose `word` is `"fallback"`) is substituted; and the
required-fields loop leaves present fields untouched and fills absent
fields with the empty string, never omitting one.  The sample response
with prose noise around a complete seven-key object recovers that object
exactly, and brace-free garbage yields the fallback record. -/
theorem claim_C5_json_recovery :
    (∀ (r : String) (j : Json), loads r = some j → recover_word_data r = j) ∧
    (∀ (r : String) (span : List Char) (j : Json), loads r = none →
      braceExtract r.data = some span → loads (String.mk span) = some j →
      recover_word_data r = j) ∧
    (∀ r : String, loads r = none → braceExtract r.data = none →
      recover_word_data r = Json.obj fallback_word_data) ∧
    (∀ (r : String) (span : List Char), loads r = none →
      braceExtract r.data = some span → loads (String.mk span) = none →
      recover_word_data r = Json.obj fallback_word_data) ∧
    (∀ (kvs : List (String × Json)) (f : String), f ∈ required_fields →
      (((fill_required kvs).lookup f).isSome = true ∧
       (kvs.lookup f = none → (fill_required kvs).lookup f = some (Json.str "")) ∧
       (∀ v, kvs.lookup f = some v → (fill_required kvs).lookup f = some v))) ∧
    get_english_word_data sampleNoiseResponse = Except.ok sampleEmbeddedObj ∧
    get_english_word_data "garbage with no braces" = Except.ok fallback_word_data ∧
    (fill_required fallback_word_data).lookup "word" = some (Json.str "fallback") := by
  refine ⟨?_, ?_, ?_, ?_, ?_, by rfl, by rfl, by rfl⟩
  · intro r j h
    simp only [recover_word_data, h]
  · intro r span j h1 h2 h3
    simp only [recover_word_data, h1, h2, h3]
  · intro r h1 h2
    simp only [recover_word_data, h1, h2]
  · intro r span h1 h2 h3
    simp only [recover_word_data, h1, h2, h3]
  · intro kvs f hf
    have hfill : fill_required kvs
        = required_fields.foldl
          (fun d f => if (d.lookup f).isSome then d else d ++ [(f, Json.str "")]) kvs := rfl
    refine ⟨?_, ?_, ?_⟩
    · by_cases hl : kvs.lookup f = none
      · rw [hfill, fill_aux_missing required_fields kvs f hf hl]
        rfl
      · obtain ⟨v, hv⟩ := Option.ne_none_iff_exists'.1 hl
        rw [hfill, fill_aux_preserves required_fields kvs f v hv]
        rfl
    · intro hl
      rw [hfill]
      exact fill_aux_missing required_fields kvs f hf hl
    · intro v hv
      rw [hfill]
      exact fill_aux_preserves required_fields kvs f v hv

/-- Witness for C5 at concrete inputs: a direct parse, a fill of a missing
field, and garbage falling back. -/
theorem claim_C5_witness :
    recover_word_data "\x7b\"word\": \"hi\"\x7d" = Json.obj [("word", Json.str "hi")] ∧
    (fill_required []).lookup "word" = some (Json.str "") ∧
    recover_word_data "garbage with no braces" = Json.obj fallback_word_data :=
  ⟨claim_C5_json_recovery.1 "\x7b\"word\": \"hi\"\x7d" (Json.obj [("word", Json.str "hi")]) (by rfl),
   (claim_C5_json_recovery.2.2.2.2.1 [] "word" (by decide)).2.1 (by rfl),
   claim_C5_json_recovery.2.2.1 "garbage with no braces" (by rfl) (by rfl)⟩

/-! ## Claim C3 -/

theorem takeDigits_append (d r : List Char) (hd : ∀ c ∈ d, c.isDigit = true)
    (hr : ∀ c, r.head? = some c → c.isDigit = false) :
    takeDigits (d ++ r) = (d, r) := by
  induction d with
  | nil =>
    cases r with
    | nil => rfl
    | cons c rest =>
      have : c.isDigit = false := hr c rfl
      simp [takeDigits, this]
  | cons c d ih =>
    have hc : c.isDigit = true := hd c (List.mem_cons_self c d)
    have ih2 := ih (fun x hx => hd x (List.mem_cons_of_mem c hx))
    simp [takeDigits, hc, ih2]

theorem takeDigits_eq : ∀ (l d r : List Char), takeDigits l = (d, r) →
    l = d ++ r ∧ (∀ c ∈ d, c.isDigit = true) ∧ (∀ c, r.head? = some c → c.isDigit = false) := by
  intro l
  induction l with
  | nil =>
    intro d r h
    simp only [takeDigits, Prod.mk.injEq] at h
    obtain ⟨h1, h2⟩ := h
    subst h1
    subst h2
    simp
  | cons c rest ih =>
    intro d r h
    by_cases hc : c.isDigit
    · rcases htd : takeDigits rest with ⟨d2, r2⟩
      obtain ⟨he, hdig, hhd⟩ := ih d2 r2 htd
      simp only [takeDigits, hc, if_true, htd, Prod.mk.injEq] at h
      obtain ⟨h1, h2⟩ := h
      subst h1
      subst h2
      refine ⟨by simpa using he, ?_, hhd⟩
      intro x hx
      cases List.mem_cons.1 hx with
      | inl hxc => subst hxc; exact hc
      | inr hxd => exact hdig x hxd
    · simp only [takeDigits, hc, if_false, Bool.false_eq_true, Prod.mk.injEq] at h
      obtain ⟨h1, h2⟩ := h
      subst h1
      subst h2
      refine ⟨by simp, by simp, ?_⟩
      intro x hx
      simp only [List.head?_cons, Option.some.injEq] at hx
      subst hx
      simpa using hc

theorem matchDurationAt_sound (l m : List Char) (h : matchDurationAt l = some m) :
    DurationShaped m ∧ ∃ post, l = m ++ post := by
  unfold matchDurationAt at h
  rcases htd : takeDigits l with ⟨d1, r1⟩
  rw [htd] at h
  simp only at h
  obtain ⟨hl1, hdig1, hhd1⟩ := takeDigits_eq l d1 r1 htd
  by_cases he1 : d1.isEmpty
  · rw [if_pos he1] at h
    exact Option.noConfusion h
  · rw [if_neg he1] at h
    split at h
    · rename_i r2
      rcases htd2 : takeDigits r2 with ⟨d2, r3⟩
      rw [htd2] at h
      simp only at h
      obtain ⟨hl2, hdig2, hhd2⟩ := takeDigits_eq r2 d2 r3 htd2
      by_cases he2 : d2.isEmpty
      · rw [if_pos he2] at h
        exact Option.noConfusion h
      · rw [if_neg he2] at h
        split at h
        · rename_i tail
          have hm := Option.some.inj h
          subst hm
          have hd1ne : d1 ≠ [] := by
            intro hx
            rw [hx] at he1
            exact he1 rfl
          have hd2ne : d2 ≠ [] := by
            intro hx
            rw [hx] at he2
            exact he2 rfl
          refine ⟨⟨d1, d2, hd1ne, hd2ne, hdig1, hdig2, rfl⟩, tail, ?_⟩
          rw [hl1, hl2]
          simp
        · exact Option.noConfusion h
    · exact Option.noConfusion h

theorem matchDurationAt_of_shape (m post : List Char) (hm : DurationShaped m) :
    matchDurationAt (m ++ post) = some m := by
  obtain ⟨d1, d2, hd1ne, hd2ne, hdig1, hdig2, hsh⟩ := hm
  subst hsh
  have h1 : takeDigits ((d1 ++ '小' :: '時' :: (d2 ++ ['分'])) ++ post)
      = (d1, '小' :: '時' :: (d2 ++ ['分']) ++ post) := by
    rw [List.append_assoc]
    exact takeDigits_append d1 _ hdig1 (by intro c hc; injection hc with hc2; subst hc2; rfl)
  have h2 : takeDigits (d2 ++ '分' :: post)
      = (d2, '分' :: post) :=
    takeDigits_append d2 _ hdig2 (by intro c hc; injection hc with hc2; subst hc2; rfl)
  unfold matchDurationAt
  rw [h1]
  simp only
  rw [if_neg (by simpa [List.isEmpty_iff] using hd1ne)]
  have hr : '小' :: '時' :: (d2 ++ ['分']) ++ post = '小' :: '時' :: (d2 ++ '分' :: post) := by
    simp
  rw [hr]
  simp only [h2]
  rw [if_neg (by simpa [List.isEmpty_iff] using hd2ne)]

theorem searchDuration_sound : ∀ (t m : List Char), searchDuration t = some m →
    DurationShaped m ∧ SubSeg m t := by
  intro t
  induction t with
  | nil => intro m h; exact Option.noConfusion h
  | cons c rest ih =>
    intro m h
    unfold searchDuration at h
    cases hma : matchDurationAt (c :: rest) with
    | some m2 =>
      rw [hma] at h
      have hm2 := Option.some.inj h
      subst hm2
      obtain ⟨hsh, post, hpost⟩ := matchDurationAt_sound _ _ hma
      exact ⟨hsh, [], post, by simpa using hpost⟩
    | none =>
      rw [hma] at h
      obtain ⟨hsh, pre, post, hsub⟩ := ih m h
      exact ⟨hsh, c :: pre, post, by rw [hsub]; rfl⟩

theorem searchDuration_complete : ∀ (pre rest : List Char) (m : List Char),
    DurationShaped m → (searchDuration (pre ++ (m ++ rest))).isSome = true := by
  intro pre
  induction pre with
  | nil =>
    intro rest m hm
    have hmatch := matchDurationAt_of_shape m rest hm
    obtain ⟨d1, d2, hd1ne, -, -, -, hsh⟩ := hm
    have hcons : ∃ c mt, m = c :: mt := by
      subst hsh
      cases d1 with
      | nil => exact absurd rfl hd1ne
      | cons c dt => exact ⟨c, _, rfl⟩
    obtain ⟨c, mt, hc⟩ := hcons
    rw [hc] at hmatch ⊢
    simp only [List.nil_append, List.cons_append]
    unfold searchDuration
    rw [show (c :: (mt ++ rest)) = (c :: mt) ++ rest from rfl, hmatch]
    rfl
  | cons p pre ih =>
    intro rest m hm
    simp only [List.cons_append]
    unfold searchDuration
    cases hma : matchDurationAt (p :: (pre ++ (m ++ rest))) with
    | some m2 => rfl
    | none => exact ih rest m hm

theorem matchReleaseAt_sound (l g : List Char) (h : matchReleaseAt l = some g) :
    ReleaseShaped g ∧ ∃ post, l = '上' :: '映' :: (g ++ post) := by
  match l with
  | [] => exact Option.noConfusion h
  | [c1] => exact Option.noConfusion h
  | c1 :: c2 :: r =>
    unfold matchReleaseAt at h
    simp only at h
    by_cases h12 : (c1 == '上' && c2 == '映') = true
    · rw [if_pos h12] at h
      obtain ⟨hc1, hc2⟩ := Bool.and_eq_true_iff.1 h12
      have hc1e : c1 = '上' := eq_of_beq hc1
      have hc2e : c2 = '映' := eq_of_beq hc2
      subst hc1e
      subst hc2e
      rcases htd : takeDigits r with ⟨d, r2⟩
      rw [htd] at h
      simp only at h
      obtain ⟨hl, hdig, hhd⟩ := takeDigits_eq r d r2 htd
      by_cases he : d.isEmpty
      · rw [if_pos he] at h
        exact Option.noConfusion h
      · rw [if_neg he] at h
        have hdne : d ≠ [] := by
          intro hx
          rw [hx] at he
          exact he rfl
        cases r2 with
        | nil => exact Option.noConfusion h
        | cons c tail =>
          simp only at h
          by_cases hcw : (c == '週') = true
          · rw [if_pos hcw] at h
            have hce : c = '週' := eq_of_beq hcw
            subst hce
            have hg := Option.some.inj h
            subst hg
            refine ⟨⟨d, hdne, hdig, Or.inl rfl⟩, tail, ?_⟩
            rw [hl]
            simp
          · rw [if_neg hcw] at h
            by_cases hcd : (c == '天') = true
            · rw [if_pos hcd] at h
              have hce : c = '天' := eq_of_beq hcd
              subst hce
              have hg := Option.some.inj h
              subst hg
              refine ⟨⟨d, hdne, hdig, Or.inr rfl⟩, tail, ?_⟩
              rw [hl]
              simp
            · rw [if_neg hcd] at h
              exact Option.noConfusion h
    · rw [if_neg h12] at h
      exact Option.noConfusion h

theorem matchReleaseAt_of_shape (g post : List Char) (hg : ReleaseShaped g) :
    matchReleaseAt ('上' :: '映' :: (g ++ post)) = some g := by
  obtain ⟨d, hdne, hdig, hcase⟩ := hg
  have hene : ¬d.isEmpty = true := by simpa [List.isEmpty_iff] using hdne
  cases hcase with
  | inl hwk =>
    subst hwk
    have htd : takeDigits ((d ++ ['週']) ++ post) = (d, '週' :: post) := by
      rw [List.append_assoc]
      exact takeDigits_append d _ hdig (by intro c hc; injection hc with hc2; subst hc2; rfl)
    unfold matchReleaseAt
    simp only
    rw [if_pos (show ('上' == '上' && '映' == '映') = true from rfl), htd]
    simp only
    rw [if_neg hene, if_pos (show ('週' == '週') = true from rfl)]
  | inr hdy =>
    subst hdy
    have htd : takeDigits ((d ++ ['天']) ++ post) = (d, '天' :: post) := by
      rw [List.append_assoc]
      exact takeDigits_append d _ hdig (by intro c hc; injection hc with hc2; subst hc2; rfl)
    unfold matchReleaseAt
    simp only
    rw [if_pos (show ('上' == '上' && '映' == '映') = true from rfl), htd]
    simp only
    rw [if_neg hene, if_neg (show ¬('天' == '週') = true from by decide),
      if_pos (show ('天' == '天') = true from rfl)]

theorem searchRelease_sound : ∀ (t g : List Char), searchRelease t = some g →
    ReleaseShaped g ∧ SubSeg ('上' :: '映' :: g) t := by
  intro t
  induction t with
  | nil => intro g h; exact Option.noConfusion h
  | cons c rest ih =>
    intro g h
    unfold searchRelease at h
    cases hma : matchReleaseAt (c :: rest) with
    | some g2 =>
      rw [hma] at h
      have hg2 := Option.some.inj h
      subst hg2
      obtain ⟨hsh, post, hpost⟩ := matchReleaseAt_sound _ _ hma
      exact ⟨hsh, [], post, by simpa using hpost⟩
    | none =>
      rw [hma] at h
      obtain ⟨hsh, pre, post, hsub⟩ := ih g h
      exact ⟨hsh, c :: pre, post, by rw [hsub]; rfl⟩

theorem searchRelease_complete : ∀ (pre rest g : List Char),
    ReleaseShaped g → (searchRelease (pre ++ ('上' :: '映' :: g) ++ rest)).isSome = true := by
  intro pre
  induction pre with
  | nil =>
    intro rest g hg
    have hmatch := matchReleaseAt_of_shape g rest hg
    simp only [List.nil_append, List.cons_append, List.append_assoc]
    unfold searchRelease
    rw [hmatch]
    rfl
  | cons p pre ih =>
    intro rest g hg
    simp only [List.cons_append]
    unfold searchRelease
    cases hma : matchReleaseAt (p :: (pre ++ ('上' :: '映' :: g) ++ rest)) with
    | some g2 => rfl
    | none =>
      have := ih rest g hg
      simpa [List.append_assoc] using this

/-- C3: for every status text, the duration field is set exactly when the
text contains a substring matching the hour/minute pattern, and it then
equals the matched substring (a digit string, `小時`, a digit string, `分`,
occurring contiguously in the text); independently, the release-window
field is set exactly when the text contains `上映` followed by digits and
`週` or `天`, and it then equals `上映` prepended to the captured group.
Concrete cases: text containing `2小時15分` yields that duration; `上映3週`
and `上映5天` yield those release windows; text without the patterns leaves
the fields absent. -/
theorem claim_C3_status_regexes (t : List Char) :
    ((∃ m, searchDuration t = some m) ↔ ContainsDuration t) ∧
    (∀ m, searchDuration t = some m →
      DurationShaped m ∧ SubSeg m t ∧ (statusFieldsOfText t).1 = some (String.mk m)) ∧
    (¬ ContainsDuration t → (statusFieldsOfText t).1 = none) ∧
    ((∃ g, searchRelease t = some g) ↔ ContainsRelease t) ∧
    (∀ g, searchRelease t = some g →
      ReleaseShaped g ∧ SubSeg ('上' :: '映' :: g) t ∧
      (statusFieldsOfText t).2 = some (String.mk ('上' :: '映' :: g))) ∧
    (¬ ContainsRelease t → (statusFieldsOfText t).2 = none) ∧
    statusFieldsOfText "本片2小時15分".data = (some "2小時15分", none) ∧
    statusFieldsOfText "動作".data = (none, none) ∧
    statusFieldsOfText "上映3週".data = (none, some "上映3週") ∧
    statusFieldsOfText "上映5天".data = (none, some "上映5天") := by
  refine ⟨?_, ?_, ?_, ?_, ?_, ?_, by rfl, by rfl, by rfl, by rfl⟩
  · constructor
    · rintro ⟨m, hm⟩
      obtain ⟨hsh, hsub⟩ := searchDuration_sound t m hm
      exact ⟨m, hsub, hsh⟩
    · rintro ⟨m, ⟨pre, post, ht⟩, hsh⟩
      have := searchDuration_complete pre post m hsh
      rw [ht, List.append_assoc]
      exact Option.isSome_iff_exists.1 this
  · intro m hm
    obtain ⟨hsh, hsub⟩ := searchDuration_sound t m hm
    refine ⟨hsh, hsub, ?_⟩
    unfold statusFieldsOfText
    rw [hm]
    rfl
  · intro hnc
    cases hs : searchDuration t with
    | none =>
      unfold statusFieldsOfText
      rw [hs]
      rfl
    | some m =>
      obtain ⟨hsh, hsub⟩ := searchDuration_sound t m hs
      exact absurd ⟨m, hsub, hsh⟩ hnc
  · constructor
    · rintro ⟨g, hg⟩
      obtain ⟨hsh, hsub⟩ := searchRelease_sound t g hg
      exact ⟨g, hsub, hsh⟩
    · rintro ⟨g, ⟨pre, post, ht⟩, hsh⟩
      have := searchRelease_complete pre post g hsh
      rw [ht]
      exact Option.isSome_iff_exists.1 this
  · intro g hg
    obtain ⟨hsh, hsub⟩ := searchRelease_sound t g hg
    refine ⟨hsh, hsub, ?_⟩
    unfold statusFieldsOfText
    rw [hg]
    rfl
  · intro hnc
    cases hs : searchRelease t with
    | none =>
      unfold statusFieldsOfText
      rw [hs]
      rfl
    | some g =>
      obtain ⟨hsh, hsub⟩ := searchRelease_sound t g hs
      exact absurd ⟨g, hsub, hsh⟩ hnc

/-- Witness for C3 at concrete status texts. -/
theorem claim_C3_witness :
    (DurationShaped "2小時15分".data ∧ SubSeg "2小時15分".data "本片2小時15分".data ∧
      (statusFieldsOfText "本片2小時15分".data).1 = some "2小時15分") ∧
    (ReleaseShaped "3週".data ∧
      SubSeg ('上' :: '映' :: "3週".data) "好評上映3週".data ∧
      (statusFieldsOfText "好評上映3週".data).2 = some "上映3週") :=
  ⟨(claim_C3_status_regexes "本片2小時15分".data).2.1 "2小時15分".data (by rfl),
   (claim_C3_status_regexes "好評上映3週".data).2.2.2.2.1 "3週".data (by rfl)⟩

/-! ## Claim C2 -/

theorem toLower_eq_paren (c : Char) (h : c.toLower = '(') : c = '(' := by
  simp only [Char.toLower] at h
  split at h
  · have h2 := congrArg Char.toNat h
    rename_i hc
    have hval : (c.toNat + 32).isValidChar := by
      rcases hc with ⟨h65, h90⟩
      left
      omega
    rw [Char.ofNat, dif_pos hval] at h2
    simp only [Char.ofNatAux, Char.toNat, UInt32.toNat, BitVec.toNat_ofNatLt] at h2
    have hpar : ('(' : Char).val.toBitVec.toNat = 40 := rfl
    rw [hpar] at h2
    have h3 : c.toNat = c.val.toBitVec.toNat := rfl
    exfalso
    omega
  · exact h

theorem charEqCI_paren (c : Char) (h : charEqCI '(' c = true) : c = '(' := by
  have h2 : ('(' : Char).toLower = c.toLower := by
    simpa [charEqCI] using h
  have h3 : ('(' : Char).toLower = '(' := by decide
  exact toLower_eq_paren c (h3 ▸ h2.symm)

theorem matchLiteralCI_exists : ∀ (lit l r : List Char), matchLiteralCI lit l = some r →
    ∀ p ∈ lit, ∃ c ∈ l, charEqCI p c = true := by
  intro lit
  induction lit with
  | nil => intro l r _ p hp; exact absurd hp (List.not_mem_nil p)
  | cons q lit ih =>
    intro l r h p hp
    cases l with
    | nil => exact Option.noConfusion h
    | cons c cs =>
      unfold matchLiteralCI at h
      by_cases hq : charEqCI q c = true
      · rw [if_pos hq] at h
        cases List.mem_cons.1 hp with
        | inl hpq =>
          subst hpq
          exact ⟨c, List.mem_cons_self c cs, hq⟩
        | inr hpl =>
          obtain ⟨c2, hc2, hcq⟩ := ih cs r h p hpl
          exact ⟨c2, List.mem_cons_of_mem c hc2, hcq⟩
      · rw [if_neg hq] at h
        exact Option.noConfusion h

theorem matchLiteralCI_rest : ∀ (lit l r : List Char), matchLiteralCI lit l = some r →
    ∀ x ∈ r, x ∈ l := by
  intro lit
  induction lit with
  | nil =>
    intro l r h x hx
    have : l = r := Option.some.inj (by simpa [matchLiteralCI] using h)
    rw [this]
    exact hx
  | cons q lit ih =>
    intro l r h x hx
    cases l with
    | nil => exact Option.noConfusion h
    | cons c cs =>
      unfold matchLiteralCI at h
      by_cases hq : charEqCI q c = true
      · rw [if_pos hq] at h
        exact List.mem_cons_of_mem c (ih cs r h x hx)
      · rw [if_neg hq] at h
        exact Option.noConfusion h

theorem matchUrlAt_paren (l cap : List Char) (h : matchUrlAt l = some cap) : '(' ∈ l := by
  unfold matchUrlAt at h
  cases hml : matchLiteralCI urlLit l with
  | none =>
    rw [hml] at h
    exact Option.noConfusion h
  | some r =>
    rw [hml] at h
    obtain ⟨c, hc, hcq⟩ := matchLiteralCI_exists urlLit l r hml '(' (by decide)
    rw [charEqCI_paren c hcq] at hc
    exact hc

theorem matchPatternAt_paren (pre : Option (List Char)) (l cap : List Char)
    (h : matchPatternAt pre l = some cap) : '(' ∈ l := by
  cases pre with
  | none => exact matchUrlAt_paren l cap h
  | some lit =>
    unfold matchPatternAt at h
    simp only at h
    cases hml : matchLiteralCI lit l with
    | none =>
      rw [hml] at h
      exact Option.noConfusion h
    | some r =>
      rw [hml] at h
      have hp : '(' ∈ r.dropWhile isWsChar := matchUrlAt_paren _ cap h
      exact matchLiteralCI_rest lit l r hml '(' (List.Sublist.mem hp (List.dropWhile_sublist _))

theorem searchPattern_none_of_no_paren (pre : Option (List Char)) :
    ∀ l : List Char, '(' ∉ l → searchPattern pre l = none := by
  intro l
  induction l with
  | nil =>
    intro _
    cases h : searchPattern pre [] with
    | none => rfl
    | some cap =>
      have h2 : matchPatternAt pre [] = some cap := by
        simpa [searchPattern] using h
      exact absurd (matchPatternAt_paren pre [] cap h2) (List.not_mem_nil '(')
  | cons c rest ih =>
    intro hnp
    unfold searchPattern
    cases hma : matchPatternAt pre (c :: rest) with
    | some cap => exact absurd (matchPatternAt_paren pre _ cap hma) hnp
    | none =>
      simp only
      exact ih (fun hx => hnp (List.mem_cons_of_mem c hx))

theorem searchPattern_cons_of_none (pre : Option (List Char)) (c : Char) (rest : List Char)
    (h : matchPatternAt pre (c :: rest) = none) :
    searchPattern pre (c :: rest) = searchPattern pre rest := by
  conv_lhs => unfold searchPattern
  rw [h]

theorem searchPattern_head (pre : Option (List Char)) (l cap : List Char)
    (h : matchPatternAt pre l = some cap) : searchPattern pre l = some cap := by
  cases l with
  | nil => simpa [searchPattern] using h
  | cons c rest =>
    unfold searchPattern
    rw [h]

theorem matchLiteralCI_self_append : ∀ lit rest : List Char,
    matchLiteralCI lit (lit ++ rest) = some rest := by
  intro lit
  induction lit with
  | nil => intro rest; rfl
  | cons p ps ih =>
    intro rest
    have hp : charEqCI p p = true := by simp [charEqCI]
    simp only [List.cons_append, matchLiteralCI, hp, if_true]
    exact ih rest

theorem goodUrlChar_props (c : Char) (h : goodUrlChar c = true) :
    (c == '(') = false ∧ (c == ')') = false ∧ isQuoteChar c = false ∧
    (c == '\n') = false ∧ isWsChar c = false := by
  unfold goodUrlChar at h
  rw [Bool.not_eq_true'] at h
  rw [Bool.or_eq_false_iff, Bool.or_eq_false_iff, Bool.or_eq_false_iff,
    Bool.or_eq_false_iff] at h
  exact ⟨h.1.1.1.1, h.1.1.1.2, h.1.1.2, h.1.2, h.2⟩

theorem closeParen_false_of_good (c : Char) (rest : List Char)
    (h : goodUrlChar c = true) : closeParen (c :: rest) = false := by
  obtain ⟨_, hcp, hq, _, _⟩ := goodUrlChar_props c h
  cases rest with
  | nil => simpa [closeParen] using hcp
  | cons d rest2 => simp [closeParen, hq, hcp]

theorem closeParen_at_paren (rest : List Char) : closeParen (')' :: rest) = true := by
  cases rest with
  | nil => rfl
  | cons d r2 => simp [closeParen]

theorem lazyCapture_append_good : ∀ (u : List Char), (∀ c ∈ u, goodUrlChar c = true) →
    ∀ rest : List Char, lazyCapture (u ++ ')' :: rest) = some u := by
  intro u
  induction u with
  | nil =>
    intro _ rest
    rw [List.nil_append]
    unfold lazyCapture
    rw [if_pos (closeParen_at_paren rest)]
  | cons c u ih =>
    intro hg rest
    have hc := hg c (List.mem_cons_self c u)
    obtain ⟨_, _, _, hn, _⟩ := goodUrlChar_props c hc
    have hclose : closeParen (c :: (u ++ ')' :: rest)) = false :=
      closeParen_false_of_good c _ hc
    rw [List.cons_append]
    unfold lazyCapture
    rw [if_neg (by rw [hclose]; exact Bool.false_ne_true)]
    rw [if_neg (by rw [hn]; exact Bool.false_ne_true)]
    rw [ih (fun x hx => hg x (List.mem_cons_of_mem c hx)) rest]
    rfl

theorem matchAfterParen_good (u : List Char) (hg : ∀ c ∈ u, goodUrlChar c = true)
    (rest : List Char) : matchAfterParen (u ++ ')' :: rest) = some u := by
  cases hu : u with
  | nil =>
    rw [List.nil_append]
    unfold matchAfterParen
    simp only
    rw [if_neg (show ¬isQuoteChar ')' = true from by decide)]
    unfold lazyCapture
    rw [if_pos (closeParen_at_paren rest)]
  | cons c u2 =>
    have hc : goodUrlChar c = true := hg c (by rw [hu]; exact List.mem_cons_self c u2)
    obtain ⟨_, _, hq, _, _⟩ := goodUrlChar_props c hc
    rw [List.cons_append]
    unfold matchAfterParen
    simp only
    rw [if_neg (show ¬isQuoteChar c = true from by rw [hq]; exact Bool.false_ne_true)]
    have h2 : (c :: (u2 ++ ')' :: rest)) = ((c :: u2) ++ ')' :: rest) := by simp
    rw [h2, ← hu]
    exact lazyCapture_append_good u (by rw [hu] at hg ⊢; exact hg) rest

theorem matchUrlAt_pos (u : List Char) (hg : ∀ c ∈ u, goodUrlChar c = true)
    (rest : List Char) : matchUrlAt (urlLit ++ (u ++ ')' :: rest)) = some u := by
  unfold matchUrlAt
  rw [matchLiteralCI_self_append]
  exact matchAfterParen_good u hg rest

theorem stripChars_id (p : Char → Bool) (u : List Char) (h : ∀ c ∈ u, p c = false) :
    stripChars p u = u := by
  have hdw : ∀ v : List Char, (∀ c ∈ v, p c = false) → v.dropWhile p = v := by
    intro v hv
    cases v with
    | nil => rfl
    | cons c cs =>
      rw [List.dropWhile_cons, if_neg (by simp [hv c (List.mem_cons_self c cs)])]
  unfold stripChars
  rw [hdw u h]
  rw [hdw u.reverse (fun c hc => h c (List.mem_reverse.1 hc))]
  exact List.reverse_reverse u

theorem tryPattern_of_search (pre : Option (List Char)) (style u : List Char)
    (hs : searchPattern pre style = some u)
    (hg : ∀ c ∈ u, goodUrlChar c = true) (hne : u ≠ []) :
    tryPattern pre style = if dataLit.isPrefixOf u then none else some u := by
  unfold tryPattern
  rw [hs]
  have hq : stripChars isQuoteChar u = u :=
    stripChars_id _ u (fun c hc => (goodUrlChar_props c (hg c hc)).2.2.1)
  have hw : stripChars isWsChar u = u :=
    stripChars_id _ u (fun c hc => (goodUrlChar_props c (hg c hc)).2.2.2.2)
  simp only [hq, hw]
  have hemp : u.isEmpty = false := by
    cases u with
    | nil => exact absurd rfl hne
    | cons c cs => rfl
  by_cases hd : dataLit.isPrefixOf u
  · rw [if_pos hd]
    simp [hemp, hd]
  · rw [if_neg hd]
    simp only [hemp, Bool.not_false, Bool.true_and]
    rw [show dataLit.isPrefixOf u = false from Bool.eq_false_iff.2 hd]
    rfl

theorem no_paren_of_good (u : List Char) (hg : ∀ c ∈ u, goodUrlChar c = true) :
    '(' ∉ u := by
  intro hm
  have := (goodUrlChar_props '(' (hg '(' hm)).1
  simp at this

theorem paren_not_mem_close (u : List Char) (h : '(' ∉ u) : '(' ∉ u ++ [')'] := by
  intro hm
  rcases List.mem_append.1 hm with h1 | h2
  · exact h h1
  · simp at h2

theorem searchBgImage_pos (u : List Char) (hg : ∀ c ∈ u, goodUrlChar c = true) :
    searchPattern (some bgImageLit) (styleBgImage u) = some u := by
  have hassoc : styleBgImage u = bgImageLit ++ (urlLit ++ (u ++ [')'])) := by
    unfold styleBgImage
    simp [List.append_assoc]
  have hml : matchLiteralCI bgImageLit (styleBgImage u) = some (urlLit ++ (u ++ [')'])) := by
    rw [hassoc]
    exact matchLiteralCI_self_append _ _
  have hdrop : (urlLit ++ (u ++ [')'])).dropWhile isWsChar = urlLit ++ (u ++ [')']) := by
    rw [show urlLit ++ (u ++ [')']) = 'u' :: ('r' :: 'l' :: '(' :: (u ++ [')'])) from rfl]
    rw [List.dropWhile_cons, if_neg (by decide)]
  apply searchPattern_head
  unfold matchPatternAt
  simp only [hml]
  rw [hdrop]
  exact matchUrlAt_pos u hg []

theorem searchBg_pos (u : List Char) (hg : ∀ c ∈ u, goodUrlChar c = true) :
    searchPattern (some bgLit) (styleBg u) = some u := by
  have hassoc : styleBg u = bgLit ++ (urlLit ++ (u ++ [')'])) := by
    unfold styleBg
    simp [List.append_assoc]
  have hml : matchLiteralCI bgLit (styleBg u) = some (urlLit ++ (u ++ [')'])) := by
    rw [hassoc]
    exact matchLiteralCI_self_append _ _
  have hdrop : (urlLit ++ (u ++ [')'])).dropWhile isWsChar = urlLit ++ (u ++ [')']) := by
    rw [show urlLit ++ (u ++ [')']) = 'u' :: ('r' :: 'l' :: '(' :: (u ++ [')'])) from rfl]
    rw [List.dropWhile_cons, if_neg (by decide)]
  apply searchPattern_head
  unfold matchPatternAt
  simp only [hml]
  rw [hdrop]
  exact matchUrlAt_pos u hg []

theorem searchBare_pos (u : List Char) (hg : ∀ c ∈ u, goodUrlChar c = true) :
    searchPattern none (styleBare u) = some u := by
  apply searchPattern_head
  show matchUrlAt (styleBare u) = some u
  have hassoc : styleBare u = urlLit ++ (u ++ [')']) := by
    unfold styleBare
    simp [List.append_assoc]
  rw [hassoc]
  exact matchUrlAt_pos u hg []

theorem searchP1_styleBg_none (u : List Char) (hnp : '(' ∉ u) :
    searchPattern (some bgImageLit) (styleBg u) = none := by
  show searchPattern (some bgImageLit)
    ('b' :: 'a' :: 'c' :: 'k' :: 'g' :: 'r' :: 'o' :: 'u' :: 'n' :: 'd' :: ':'
      :: 'u' :: 'r' :: 'l' :: '(' :: (u ++ [')'])) = none
  iterate 15 rw [searchPattern_cons_of_none]
  · exact searchPattern_none_of_no_paren _ _ (paren_not_mem_close u hnp)
  all_goals rfl

theorem searchP1_styleBare_none (u : List Char) (hnp : '(' ∉ u) :
    searchPattern (some bgImageLit) (styleBare u) = none := by
  show searchPattern (some bgImageLit) ('u' :: 'r' :: 'l' :: '(' :: (u ++ [')'])) = none
  iterate 4 rw [searchPattern_cons_of_none]
  · exact searchPattern_none_of_no_paren _ _ (paren_not_mem_close u hnp)
  all_goals rfl

theorem searchP2_styleBare_none (u : List Char) (hnp : '(' ∉ u) :
    searchPattern (some bgLit) (styleBare u) = none := by
  show searchPattern (some bgLit) ('u' :: 'r' :: 'l' :: '(' :: (u ++ [')'])) = none
  iterate 4 rw [searchPattern_cons_of_none]
  · exact searchPattern_none_of_no_paren _ _ (paren_not_mem_close u hnp)
  all_goals rfl

theorem searchP2_styleBgImage_none (u : List Char) (hnp : '(' ∉ u) :
    searchPattern (some bgLit) (styleBgImage u) = none := by
  show searchPattern (some bgLit)
    ('b' :: 'a' :: 'c' :: 'k' :: 'g' :: 'r' :: 'o' :: 'u' :: 'n' :: 'd' :: '-'
      :: 'i' :: 'm' :: 'a' :: 'g' :: 'e' :: ':'
      :: 'u' :: 'r' :: 'l' :: '(' :: (u ++ [')'])) = none
  iterate 21 rw [searchPattern_cons_of_none]
  · exact searchPattern_none_of_no_paren _ _ (paren_not_mem_close u hnp)
  all_goals rfl

theorem searchBare_styleBgImage_pos (u : List Char) (hg : ∀ c ∈ u, goodUrlChar c = true) :
    searchPattern none (styleBgImage u) = some u := by
  show searchPattern none
    ('b' :: 'a' :: 'c' :: 'k' :: 'g' :: 'r' :: 'o' :: 'u' :: 'n' :: 'd' :: '-'
      :: 'i' :: 'm' :: 'a' :: 'g' :: 'e' :: ':'
      :: 'u' :: 'r' :: 'l' :: '(' :: (u ++ [')'])) = some u
  iterate 17 rw [searchPattern_cons_of_none]
  · exact searchPattern_head _ _ _ (matchUrlAt_pos u hg [])
  all_goals rfl

theorem searchBare_styleBg_pos (u : List Char) (hg : ∀ c ∈ u, goodUrlChar c = true) :
    searchPattern none (styleBg u) = some u := by
  show searchPattern none
    ('b' :: 'a' :: 'c' :: 'k' :: 'g' :: 'r' :: 'o' :: 'u' :: 'n' :: 'd' :: ':'
      :: 'u' :: 'r' :: 'l' :: '(' :: (u ++ [')'])) = some u
  iterate 11 rw [searchPattern_cons_of_none]
  · exact searchPattern_head _ _ _ (matchUrlAt_pos u hg [])
  all_goals rfl

theorem tryPattern_none_of_search_none (pre : Option (List Char)) (style : List Char)
    (hs : searchPattern pre style = none) : tryPattern pre style = none := by
  unfold tryPattern
  rw [hs]

theorem normalUrl_props (u : List Char) (h : normalUrl u = true) :
    u ≠ [] ∧ (∀ c ∈ u, goodUrlChar c = true) := by
  unfold normalUrl at h
  obtain ⟨h1, h2⟩ := Bool.and_eq_true_iff.1 h
  constructor
  · intro hx
    rw [hx] at h1
    exact Bool.noConfusion h1
  · exact List.all_eq_true.1 h2

/-- C2: for each of the three poster-style patterns in isolation
(`background-image:url(...)`, `background:url(...)`, bare `url(...)`),
the extractor returns the embedded URL unmodified when it is a normal URL
(non-empty, no parentheses, quotes, whitespace or newline), and the empty
string when the embedded URL is empty or uses the inline-data (`data:`)
scheme; it also returns the empty string when no pattern can match (no
opening parenthesis anywhere in the style) and when the style attribute is
absent.  The patterns are tried in the order of the source, first accepted
match winning. -/
theorem claim_C2_poster_url_patterns :
    (∀ u : List Char, normalUrl u = true → dataLit.isPrefixOf u = false →
      extract_image_url_style (styleBgImage u) = u ∧
      extract_image_url_style (styleBg u) = u ∧
      extract_image_url_style (styleBare u) = u) ∧
    (∀ u : List Char, normalUrl u = true → dataLit.isPrefixOf u = true →
      extract_image_url_style (styleBgImage u) = [] ∧
      extract_image_url_style (styleBg u) = [] ∧
      extract_image_url_style (styleBare u) = []) ∧
    extract_image_url_style "background-image:url()".data = [] ∧
    extract_image_url_style "background:url()".data = [] ∧
    extract_image_url_style "url()".data = [] ∧
    (∀ s : List Char, '(' ∉ s → extract_image_url_style s = []) ∧
    extractFromStyle none = [] := by
  refine ⟨?_, ?_, by rfl, by rfl, by rfl, ?_, by rfl⟩
  · intro u hnu hdf
    obtain ⟨hne, hg⟩ := normalUrl_props u hnu
    have hnp : '(' ∉ u := no_paren_of_good u hg
    have haccept : ∀ pre style, searchPattern pre style = some u →
        tryPattern pre style = some u := by
      intro pre style hs
      rw [tryPattern_of_search pre style u hs hg hne, hdf]
      simp
    refine ⟨?_, ?_, ?_⟩
    · have h1 := haccept _ _ (searchBgImage_pos u hg)
      unfold extract_image_url_style
      simp only [h1]
    · have h1 := tryPattern_none_of_search_none _ _ (searchP1_styleBg_none u hnp)
      have h2 := haccept _ _ (searchBg_pos u hg)
      unfold extract_image_url_style
      simp only [h1, h2]
    · have h1 := tryPattern_none_of_search_none _ _ (searchP1_styleBare_none u hnp)
      have h2 := tryPattern_none_of_search_none _ _ (searchP2_styleBare_none u hnp)
      have h3 := haccept _ _ (searchBare_pos u hg)
      unfold extract_image_url_style
      simp only [h1, h2, h3]
  · intro u hnu hdt
    obtain ⟨hne, hg⟩ := normalUrl_props u hnu
    have hnp : '(' ∉ u := no_paren_of_good u hg
    have hreject : ∀ pre style, searchPattern pre style = some u →
        tryPattern pre style = none := by
      intro pre style hs
      rw [tryPattern_of_search pre style u hs hg hne, hdt]
      simp
    refine ⟨?_, ?_, ?_⟩
    · have h1 := hreject _ _ (searchBgImage_pos u hg)
      have h2 := tryPattern_none_of_search_none _ _ (searchP2_styleBgImage_none u hnp)
      have h3 := hreject _ _ (searchBare_styleBgImage_pos u hg)
      unfold extract_image_url_style
      simp only [h1, h2, h3]
    · have h1 := tryPattern_none_of_search_none _ _ (searchP1_styleBg_none u hnp)
      have h2 := hreject _ _ (searchBg_pos u hg)
      have h3 := hreject _ _ (searchBare_styleBg_pos u hg)
      unfold extract_image_url_style
      simp only [h1, h2, h3]
    · have h1 := tryPattern_none_of_search_none _ _ (searchP1_styleBare_none u hnp)
      have h2 := tryPattern_none_of_search_none _ _ (searchP2_styleBare_none u hnp)
      have h3 := hreject _ _ (searchBare_pos u hg)
      unfold extract_image_url_style
      simp only [h1, h2, h3]
  · intro s hnp
    have h1 := tryPattern_none_of_search_none (some bgImageLit) s
      (searchPattern_none_of_no_paren _ s hnp)
    have h2 := tryPattern_none_of_search_none (some bgLit) s
      (searchPattern_none_of_no_paren _ s hnp)
    have h3 := tryPattern_none_of_search_none none s
      (searchPattern_none_of_no_paren _ s hnp)
    unfold extract_image_url_style
    simp only [h1, h2, h3]

/-- Witness for C2 at a concrete normal URL, a concrete `data:` URI and a
concrete pattern-free style. -/
theorem claim_C2_witness :
    (extract_image_url_style (styleBgImage "https://img.example/p.jpg".data)
        = "https://img.example/p.jpg".data ∧
      extract_image_url_style (styleBg "https://img.example/p.jpg".data)
        = "https://img.example/p.jpg".data ∧
      extract_image_url_style (styleBare "https://img.example/p.jpg".data)
        = "https://img.example/p.jpg".data) ∧
    (extract_image_url_style (styleBgImage "data:image/png;base64,AA".data) = [] ∧
      extract_image_url_style (styleBg "data:image/png;base64,AA".data) = [] ∧
      extract_image_url_style (styleBare "data:image/png;base64,AA".data) = []) ∧
    extract_image_url_style "color:red".data = [] :=
  ⟨claim_C2_poster_url_patterns.1 "https://img.example/p.jpg".data (by rfl) (by rfl),
   claim_C2_poster_url_patterns.2.1 "data:image/png;base64,AA".data (by rfl) (by rfl),
   claim_C2_poster_url_patterns.2.2.2.2.2.1 "color:red".data (by decide)⟩
